import Mathlib

/-! # tapresp: a tappable `http.ResponseWriter`

A shallow embedding of `tappable_responsewriter.go`.

The Go program works on slices, maps and buffers that share storage, and
several of its documented guarantees are about that sharing.  The embedding
therefore keeps an explicit store:

* `Mem α` holds the backing arrays of `[]α` slices; a `Slice` is the Go slice
  header (array, start, length, capacity);
* `HdrHeap` holds the `http.Header` maps (reference objects) and the backing
  arrays of their `[]string` values;
* the wrapped `http.ResponseWriter` is an interface value: a record of
  operations over a state type `σ` chosen by the implementation.

Lengths and capacities are `Nat`: a slice never has more than `maxInt`
elements, and the `ErrTooLarge` panic of `bytes.Buffer` needs a capacity of
at least `2^62` bytes.  Status codes and byte counts are Go `int`s that are
only stored, compared and passed on, so they are `Int`.  A call that panics
returns `none`.

The parts of the Go standard library the program calls (`bytes.Buffer`,
`http.Header`, `io.ReadAll`, `httptest.ResponseRecorder`) are embedded from
their Go sources, function by function, next to the program itself.
-/

namespace Tapresp

/-! ## Go slices and their backing arrays -/

/-- One byte of a `[]byte`. -/
abbrev Byte := UInt8

/-- Go's `error`: `none` is the nil error, `some msg` an error value. -/
abbrev Error := Option String

/-- Slice header: `nil`, or a window of `len` elements starting at index `off`
of backing array `arr`, with `cap` elements available from `off` on. -/
inductive Slice where
  | nil
  | mk (arr off len cap : Nat)
deriving DecidableEq, Repr

namespace Slice

/-- Go `len(s)`. -/
def len : Slice → Nat
  | nil => 0
  | mk _ _ l _ => l

/-- Go `cap(s)`. -/
def cap : Slice → Nat
  | nil => 0
  | mk _ _ _ c => c

/-- Go `s == nil`. -/
def isNil : Slice → Bool
  | nil => true
  | mk _ _ _ _ => false

/-- Go `s[i:]`. -/
def sliceFrom (s : Slice) (i : Nat) : Slice :=
  match s with
  | nil => nil
  | mk a o l c => mk a (o + i) (l - i) (c - i)

/-- Go `s[:j]`. -/
def sliceTo (s : Slice) (j : Nat) : Slice :=
  match s with
  | nil => nil
  | mk a o _ c => mk a o j c

/-- Go `s[:j:k]`. -/
def sliceTo3 (s : Slice) (j k : Nat) : Slice :=
  match s with
  | nil => nil
  | mk a o _ _ => mk a o j k

end Slice

/-- Backing arrays of the slices of element type `α`: `cell a i` is element
`i` of array `a`; arrays `0 .. next-1` have been allocated. -/
structure Mem (α : Type) where
  cell : Nat → Nat → α
  next : Nat

namespace Mem

variable {α : Type}

/-- The elements a slice denotes in the current memory. -/
def read (m : Mem α) : Slice → List α
  | .nil => []
  | .mk a o l _ => (List.range l).map (fun i => m.cell a (o + i))

/-- Go `s[i] = v` (index within the length is the caller's duty). -/
def store (m : Mem α) (s : Slice) (i : Nat) (v : α) : Mem α :=
  match s with
  | .nil => m
  | .mk a o _ _ =>
    { m with cell := fun a' j => if a' = a ∧ j = o + i then v else m.cell a' j }

/-- Go `copy(dst, src)`: copies `min(len(dst), len(src))` elements and returns
that number; source and destination may overlap (the source is read first). -/
def copy (m : Mem α) (dst src : Slice) : Nat × Mem α :=
  let n := min dst.len src.len
  match dst with
  | .nil => (n, m)
  | .mk a o _ _ =>
    let vals := (m.read src).take n
    (n, { m with cell := fun a' i =>
            if a' = a ∧ o ≤ i ∧ i < o + n then vals.getD (i - o) (m.cell a' i)
            else m.cell a' i })

/-- Go `make([]T, len, cap)`: a fresh zeroed array. -/
def make [Inhabited α] (m : Mem α) (len cap : Nat) : Slice × Mem α :=
  (.mk m.next 0 len cap,
   { cell := fun a i => if a = m.next then default else m.cell a i,
     next := m.next + 1 })

/-- A slice header refers to an array that has been allocated. -/
def Valid (m : Mem α) : Slice → Prop
  | .nil => True
  | .mk a _ _ _ => a < m.next

instance (m : Mem α) (s : Slice) : Decidable (m.Valid s) := by
  cases s <;> unfold Valid <;> infer_instance

end Mem

/-! ## `bytes.Buffer` -/

/-- The fields of `bytes.Buffer` that decide its contents: the contents are
the bytes `buf[off : len(buf)]`.  (`lastRead` only serves `Unread*`.) -/
structure Buffer where
  buf : Slice
  off : Nat
deriving DecidableEq, Repr

/-- Go `smallBufferSize`. -/
def smallBufferSize : Nat := 64

namespace Buffer

/-- Go `Buffer.Len`: `len(b.buf) - b.off`. -/
def Len (b : Buffer) : Nat := b.buf.len - b.off

/-- Go `Buffer.Bytes`: `b.buf[b.off:]`, a slice that shares the buffer's array. -/
def Bytes (b : Buffer) : Slice := b.buf.sliceFrom b.off

/-- Go `Buffer.Reset`: `b.buf = b.buf[:0]; b.off = 0`; the array is kept. -/
def Reset (b : Buffer) : Buffer := { buf := b.buf.sliceTo 0, off := 0 }

/-- Go `bytes.NewBuffer(buf)`: `&Buffer{buf: buf}`; the argument is not copied. -/
def NewBuffer (buf : Slice) : Buffer := { buf := buf, off := 0 }

/-- Go `tryGrowByReslice`: `if l := len(b.buf); n <= cap(b.buf)-l`. -/
def tryGrowByReslice (b : Buffer) (n : Nat) : Buffer × Nat × Bool :=
  let l := b.buf.len
  if l + n ≤ b.buf.cap then ({ b with buf := b.buf.sliceTo (l + n) }, l, true)
  else (b, 0, false)

/-- The Go runtime's size classes (`class_to_size`), in bytes. -/
def sizeClasses : List Nat :=
  [8, 16, 24, 32, 48, 64, 80, 96, 112, 128, 144, 160, 176, 192, 208, 224, 240, 256,
   288, 320, 352, 384, 416, 448, 480, 512, 576, 640, 704, 768, 896, 1024, 1152, 1280,
   1408, 1536, 1792, 2048, 2304, 2688, 3072, 3200, 3456, 4096, 4864, 5376, 6144,
   6528, 6784, 6912, 8192, 9472, 9728, 10240, 10880, 12288, 13568, 14336, 16384, 18432,
   19072, 20480, 21760, 24576, 27264, 28672, 32768]

/-- The Go runtime's `roundupsize` for memory without pointers: the bytes
`mallocgc` hands out for a request of `size` bytes, the smallest size class
that fits, or whole pages of 8192 bytes above the largest class. -/
def roundupsize (size : Nat) : Nat :=
  if size = 0 then 0
  else
    match sizeClasses.find? (fun c => decide (size ≤ c)) with
    | some c => c
    | none => (size + 8191) / 8192 * 8192

/-- Go `growSlice(b, n)`: `c := max(len(b)+n, 2*cap(b))`, then
`b2 := append([]byte(nil), make([]byte, c)...)`, a new array of length `c`
whose capacity the runtime rounds up to `roundupsize(c)`, holding a copy of
`b`; the result is `b2[:len(b)]`. -/
def growSlice (m : Mem Byte) (b : Slice) (n : Nat) : Slice × Mem Byte :=
  let c := if b.len + n < 2 * b.cap then 2 * b.cap else b.len + n
  let (b2, m) := m.make c (roundupsize c)
  let (_, m) := m.copy b2 b
  (b2.sliceTo b.len, m)

/-- Go `Buffer.grow(n)`: makes room for `n` more bytes and returns the index
where they go.  `n <= c/2-m` is written `n + m ≤ c / 2`. -/
def grow (b : Buffer) (m : Mem Byte) (n : Nat) : Buffer × Mem Byte × Nat :=
  let m0 := b.Len
  let b := if m0 = 0 ∧ b.off ≠ 0 then b.Reset else b
  match b.tryGrowByReslice n with
  | (b1, i, true) => (b1, m, i)
  | (_, _, false) =>
    if b.buf.isNil ∧ n ≤ smallBufferSize then
      let (s, m) := m.make n smallBufferSize
      ({ b with buf := s }, m, 0)
    else
      let c := b.buf.cap
      let (b, m) :=
        if n + m0 ≤ c / 2 then
          let (_, m) := m.copy b.buf (b.buf.sliceFrom b.off)
          (b, m)
        else
          let (s, m) := growSlice m (b.buf.sliceFrom b.off) (b.off + n)
          ({ b with buf := s }, m)
      ({ buf := b.buf.sliceTo (m0 + n), off := 0 }, m, m0)

/-- Go `Buffer.Write(p)`: appends `p`, growing as needed; `err` is always nil. -/
def Write (b : Buffer) (m : Mem Byte) (p : Slice) : (Nat × Error) × Buffer × Mem Byte :=
  let (b, m, i) :=
    match b.tryGrowByReslice p.len with
    | (b1, i, true) => (b1, m, i)
    | (_, _, false) => b.grow m p.len
  let (n, m) := m.copy (b.buf.sliceFrom i) p
  ((n, none), b, m)

/-- Go `io.ReadAll` on the buffer: the unread bytes, in order; the read that
finds the buffer empty resets it and reports end-of-stream. -/
def ReadAll (b : Buffer) (m : Mem Byte) : List Byte × Buffer :=
  (m.read b.Bytes, ({ b with off := b.buf.len } : Buffer).Reset)

end Buffer

/-! ## `http.Header` -/

/-- Contents of a Go `map[string][]string`: one entry per key. -/
abbrev HeaderMap := List (String × Slice)

/-- Go `m[k]` with the comma-ok form: the value stored under `k`, if any. -/
def mapGet : HeaderMap → String → Option Slice
  | [], _ => none
  | (k1, v) :: rest, k => if k1 = k then some v else mapGet rest k

/-- Go `m[k] = v`: replaces the entry of `k` or adds one. -/
def mapSet : HeaderMap → String → Slice → HeaderMap
  | [], k, v => [(k, v)]
  | (k1, v1) :: rest, k, v =>
    if k1 = k then (k, v) :: rest else (k1, v1) :: mapSet rest k v

/-- The store of header maps: the backing arrays of `[]string` values and the
map objects, `maps r` being the contents of map `r`; maps `0 .. nextMap-1`
have been made. -/
structure HdrHeap where
  strs : Mem String
  maps : Nat → HeaderMap
  nextMap : Nat

/-- A value of type `http.Header`: the nil map, or a reference to a map object. -/
abbrev HttpHeader := Option Nat

namespace HdrHeap

/-- Go `make(http.Header)`: a fresh empty map. -/
def makeMap (hh : HdrHeap) : Nat × HdrHeap :=
  (hh.nextMap,
   { hh with maps := fun r => if r = hh.nextMap then [] else hh.maps r,
             nextMap := hh.nextMap + 1 })

/-- Go `h[k] = v` on the map object `r`. -/
def setEntry (hh : HdrHeap) (r : Nat) (k : String) (v : Slice) : HdrHeap :=
  { hh with maps := fun r1 => if r1 = r then mapSet (hh.maps r) k v else hh.maps r1 }

/-- Go `len(h)`; the nil map has length 0. -/
def size (hh : HdrHeap) : HttpHeader → Nat
  | none => 0
  | some r => (hh.maps r).length

/-- Go `h[k]` read as a list of strings; `none` when the key is absent (or the
map nil). -/
def values (hh : HdrHeap) (h : HttpHeader) (k : String) : Option (List String) :=
  match h with
  | none => none
  | some r => (mapGet (hh.maps r) k).map hh.strs.read

/-- The keys of a header, in the order of the entries. -/
def keys (hh : HdrHeap) : HttpHeader → List String
  | none => []
  | some r => (hh.maps r).map Prod.fst

end HdrHeap

/-- Go `append(s, v)` on a `[]string`: in place when the capacity allows,
otherwise into a new array.  (The runtime picks the new capacity, at least
`len(s)+1`; the model takes `max(len(s)+1, 2*cap(s))`.) -/
def appendStr (m : Mem String) (s : Slice) (v : String) : Slice × Mem String :=
  if s.len < s.cap then
    let t := s.sliceTo (s.len + 1)
    (t, m.store t s.len v)
  else
    let (t, m) := m.make (s.len + 1) (max (s.len + 1) (2 * s.cap))
    let (_, m) := m.copy t s
    (t, m.store t s.len v)

section HeaderOps

-- The key canonicalisation `textproto.CanonicalMIMEHeaderKey` is a parameter.
variable (canon : String → String)

/-- Go `Header.Get(key)`: the first value under the canonical key, `""` when
there is none (or the map is nil). -/
def HeaderGet (hh : HdrHeap) (h : HttpHeader) (key : String) : String :=
  match h with
  | none => ""
  | some r =>
    let v := (mapGet (hh.maps r) (canon key)).getD .nil
    (hh.strs.read v).headD ""

/-- Go `Header.Set(key, value)`: `h[canon(key)] = []string{value}`; panics on
the nil map. -/
def HeaderSet (hh : HdrHeap) (h : HttpHeader) (key value : String) : Option HdrHeap :=
  match h with
  | none => none
  | some r =>
    let (s, strs) := hh.strs.make 1 1
    let strs := strs.store s 0 value
    some ({ hh with strs := strs }.setEntry r (canon key) s)

/-- Go `Header.Add(key, value)`: `h[k] = append(h[k], value)` for the
canonical key `k`; panics on the nil map. -/
def HeaderAdd (hh : HdrHeap) (h : HttpHeader) (key value : String) : Option HdrHeap :=
  match h with
  | none => none
  | some r =>
    let old := (mapGet (hh.maps r) (canon key)).getD .nil
    let (s, strs) := appendStr hh.strs old value
    some ({ hh with strs := strs }.setEntry r (canon key) s)

end HeaderOps

/-- Go `nv += len(vv)` over the entries: total number of values. -/
def countValues : HeaderMap → Nat
  | [] => 0
  | (_, vv) :: rest => vv.len + countValues rest

/-- The loop of `Header.Clone`: for every entry, a nil value stays nil,
otherwise `n := copy(sv, vv); h2[k] = sv[:n:n]; sv = sv[n:]`. -/
def cloneLoop (strs : Mem String) : HeaderMap → Slice → HeaderMap → Mem String × HeaderMap
  | [], _, h2 => (strs, h2)
  | (k, vv) :: rest, sv, h2 =>
    if vv.isNil then cloneLoop strs rest sv (mapSet h2 k .nil)
    else
      let (n, strs) := strs.copy sv vv
      cloneLoop strs rest (sv.sliceFrom n) (mapSet h2 k (sv.sliceTo3 n n))

/-- Go `Header.Clone()`: nil for nil; otherwise a new map whose values live in
one new backing array `sv`. -/
def HeaderClone (hh : HdrHeap) (h : HttpHeader) : HttpHeader × HdrHeap :=
  match h with
  | none => (none, hh)
  | some r =>
    let (sv, strs) := hh.strs.make (countValues (hh.maps r)) (countValues (hh.maps r))
    let (strs, h2) := cloneLoop strs (hh.maps r) sv []
    (some hh.nextMap,
     { strs := strs,
       maps := fun r1 => if r1 = hh.nextMap then h2 else hh.maps r1,
       nextMap := hh.nextMap + 1 })

/-! ## The wrapped `http.ResponseWriter` -/

/-- The interface `http.ResponseWriter`, implemented over a private state `σ`.
`Header` hands out the writer's header map.  `Write` is given a slice and the
byte memory to read it from; it may not change that memory (the `io.Writer`
contract: the data is neither modified nor retained) and keeps what it writes
in its own state.  `Write` and `WriteHeader` may change headers; `none` is a
panic. -/
structure ResponseWriter (σ : Type) where
  Header : σ → HttpHeader
  Write : σ → HdrHeap → Mem Byte → Slice → Option ((Int × Error) × σ × HdrHeap)
  WriteHeader : σ → HdrHeap → Int → Option (σ × HdrHeap)

/-- The whole store: byte arrays and headers. -/
structure Heap where
  bytes : Mem Byte
  hdr : HdrHeap

/-! ## `TappableResponseWriter` -/

/-- Go `type TappableResponseWriter struct`; `w` is the state of the wrapped
writer. -/
structure TappableResponseWriter (σ : Type) where
  status : Int
  body : Buffer
  w : σ

/-- The fields of `http.Response` that `Response()` fills in.  `Body` is the
`bytes.Buffer` behind `io.NopCloser`, whose `Close` does nothing. -/
structure Response where
  StatusCode : Int
  Header : HttpHeader
  Body : Buffer

namespace TappableResponseWriter

variable {σ : Type} (W : ResponseWriter σ)

/-- Go `func (rw *TappableResponseWriter) StatusCode() int`. -/
def StatusCode (rw : TappableResponseWriter σ) : Int := rw.status

/-- Go `func (rw *TappableResponseWriter) Header() http.Header`. -/
def Header (rw : TappableResponseWriter σ) : HttpHeader := W.Header rw.w

/-- Go `func (rw *TappableResponseWriter) Body() []byte`: `rw.body.Bytes()`. -/
def Body (rw : TappableResponseWriter σ) : Slice := rw.body.Bytes

/-- Go `func (rw *TappableResponseWriter) WriteHeader(statusCode int)`. -/
def WriteHeader (rw : TappableResponseWriter σ) (h : Heap) (statusCode : Int) :
    Option (TappableResponseWriter σ × Heap) :=
  let rw := { rw with status := statusCode }
  match W.WriteHeader rw.w h.hdr statusCode with
  | none => none
  | some (w, hdr) => some ({ rw with w := w }, { h with hdr := hdr })

/-- Go `func (rw *TappableResponseWriter) Write(data []byte) (int, error)`. -/
def Write (rw : TappableResponseWriter σ) (h : Heap) (data : Slice) :
    Option ((Int × Error) × TappableResponseWriter σ × Heap) :=
  let body := rw.body.Reset
  let ((n, err), body, bytes) := body.Write h.bytes data
  let rw := { rw with body := body }
  let h := { h with bytes := bytes }
  if err ≠ none then some (((n : Int), err), rw, h)
  else if n ≠ data.len then
    some (((n : Int), some "failed to write entirety of input to body"), rw, h)
  else
    match W.Write rw.w h.hdr h.bytes data with
    | none => none
    | some (res, w, hdr) => some (res, { rw with w := w }, { h with hdr := hdr })

/-- Go `func (rw *TappableResponseWriter) Response() *http.Response`. -/
def Response (rw : TappableResponseWriter σ) (h : Heap) : Tapresp.Response × Heap :=
  let (hd, hdr) := HeaderClone h.hdr (W.Header rw.w)
  ({ StatusCode := rw.status, Header := hd, Body := Buffer.NewBuffer rw.body.Bytes },
   { h with hdr := hdr })

/-- Go `func New(w http.ResponseWriter) *TappableResponseWriter`; the zero
`bytes.Buffer` has a nil `buf`. -/
def New (w : σ) : TappableResponseWriter σ :=
  { w := w, status := 0, body := { buf := .nil, off := 0 } }

end TappableResponseWriter

/-- The first half of `Write`: `rw.body.Reset()` then `rw.body.Write(data)`. -/
def bufferStep {σ : Type} (rw : TappableResponseWriter σ) (h : Heap) (data : Slice) :
    (Nat × Error) × Buffer × Mem Byte :=
  rw.body.Reset.Write h.bytes data

/-! ## `httptest.ResponseRecorder` -/

/-- The fields of `httptest.ResponseRecorder` its `http.ResponseWriter`
methods use.  `HeaderMap` is the map made by `NewRecorder` (the lazy
`make` of `Header()` only serves a caller who sets the field to nil); `Body`
holds the contents of the recorder's own `*bytes.Buffer`, `none` for a nil
pointer. -/
structure ResponseRecorder where
  Code : Int
  HeaderMap : Nat
  Body : Option (List Byte)
  snapHeader : HttpHeader
  wroteHeader : Bool

/-- Go `bodyAllowedForStatus`: no body with a 1xx, 204 or 304 status. -/
def bodyAllowedForStatus (status : Int) : Bool :=
  if 100 ≤ status ∧ status ≤ 199 then false
  else if status = 204 then false
  else if status = 304 then false
  else true

/-- Go `http.ErrBodyNotAllowed`. -/
def ErrBodyNotAllowed : String :=
  "http: request method or response status code does not allow body"

namespace ResponseRecorder

/-- Go `httptest.NewRecorder()`. -/
def NewRecorder (hh : HdrHeap) : ResponseRecorder × HdrHeap :=
  let (r, hh) := hh.makeMap
  ({ Code := 200, HeaderMap := r, Body := some [], snapHeader := none,
     wroteHeader := false }, hh)

/-- Go `ResponseRecorder.WriteHeader(code)`: only the first call counts;
`checkWriteHeaderCode` panics outside `100 .. 999`. -/
def WriteHeader (rw : ResponseRecorder) (hh : HdrHeap) (code : Int) :
    Option (ResponseRecorder × HdrHeap) :=
  if rw.wroteHeader then some (rw, hh)
  else if code < 100 ∨ code > 999 then none
  else
    let (snap, hh) := HeaderClone hh (some rw.HeaderMap)
    some ({ rw with Code := code, wroteHeader := true, snapHeader := snap }, hh)

section

-- `textproto.CanonicalMIMEHeaderKey` and `http.DetectContentType` are parameters.
variable (canon : String → String) (detect : List Byte → String)

/-- Go `ResponseRecorder.writeHeader(b, "")`: before the first write, sets a
sniffed `Content-Type` unless one (or a `Transfer-Encoding`) is there, then
`WriteHeader(200)`. -/
def writeHeader (rw : ResponseRecorder) (hh : HdrHeap) (b : List Byte) :
    Option (ResponseRecorder × HdrHeap) :=
  if rw.wroteHeader then some (rw, hh)
  else
    let m : HttpHeader := some rw.HeaderMap
    let hasType := (mapGet (hh.maps rw.HeaderMap) "Content-Type").isSome
    let hasTE := HeaderGet canon hh m "Transfer-Encoding" ≠ ""
    let set := if ¬ hasType ∧ ¬ hasTE then HeaderSet canon hh m "Content-Type" (detect b)
               else some hh
    match set with
    | none => none
    | some hh => rw.WriteHeader hh 200

/-- Go `ResponseRecorder.Write(buf)`: `writeHeader`, then appends to `Body`
when it is not nil (the write is recorded even when an error follows);
returns `0, http.ErrBodyNotAllowed` when the status allows no body, else
`len(buf), nil`. -/
def Write (rw : ResponseRecorder) (hh : HdrHeap) (m : Mem Byte) (buf : Slice) :
    Option ((Int × Error) × ResponseRecorder × HdrHeap) :=
  match writeHeader canon detect rw hh (m.read buf) with
  | none => none
  | some (rw, hh) =>
    let rw := match rw.Body with
      | none => rw
      | some body => { rw with Body := some (body ++ m.read buf) }
    if bodyAllowedForStatus rw.Code then some (((buf.len : Int), none), rw, hh)
    else some ((0, some ErrBodyNotAllowed), rw, hh)

/-- The recorder as an `http.ResponseWriter`. -/
def writer : ResponseWriter ResponseRecorder where
  Header := fun rw => some rw.HeaderMap
  Write := Write canon detect
  WriteHeader := WriteHeader

end

end ResponseRecorder

/-! ## Observing the calls made on the wrapped writer -/

/-- A call received by the wrapped writer: `Write` with the bytes the slice
held at the call, or `WriteHeader` with its code. -/
inductive Call where
  | Write (data : List Byte)
  | WriteHeader (statusCode : Int)
deriving DecidableEq, Repr

/-- Any writer, made to log the calls it receives and otherwise unchanged. -/
def spy {σ : Type} (W : ResponseWriter σ) : ResponseWriter (σ × List Call) where
  Header := fun s => W.Header s.1
  Write := fun s hh m data =>
    match W.Write s.1 hh m data with
    | none => none
    | some (res, w, hh) => some (res, (w, s.2 ++ [Call.Write (m.read data)]), hh)
  WriteHeader := fun s hh c =>
    match W.WriteHeader s.1 hh c with
    | none => none
    | some (w, hh) => some ((w, s.2 ++ [Call.WriteHeader c]), hh)

/-! ## Sequences of calls -/

/-- The rest of `Write` after `n, err := rw.body.Write(data)`, from what that
call returned (`r`): the two early returns, then the forwarding. -/
def writeAfterBuffer {σ : Type} (W : ResponseWriter σ) (rw : TappableResponseWriter σ)
    (h : Heap) (data : Slice) (r : (Nat × Error) × Buffer × Mem Byte) :
    Option ((Int × Error) × TappableResponseWriter σ × Heap) :=
  let rw := { rw with body := r.2.1 }
  let h := { h with bytes := r.2.2 }
  if r.1.2 ≠ none then some (((r.1.1 : Int), r.1.2), rw, h)
  else if r.1.1 ≠ data.len then
    some (((r.1.1 : Int), some "failed to write entirety of input to body"), rw, h)
  else
    match W.Write rw.w h.hdr h.bytes data with
    | none => none
    | some (res, w, hdr) => some (res, { rw with w := w }, { h with hdr := hdr })

/-- A call a handler makes on the writer.  `HeaderSet` and `HeaderAdd` are
`Header().Set(key, value)` and `Header().Add(key, value)`: mutations of the
headers that `Header()` returned. -/
inductive Op where
  | WriteHeader (statusCode : Int)
  | Write (data : Slice)
  | Header
  | HeaderSet (key value : String)
  | HeaderAdd (key value : String)
  | Body
  | StatusCode
  | Response
deriving DecidableEq, Repr

/-- The call is a `WriteHeader`. -/
def Op.isWriteHeader : Op → Bool
  | .WriteHeader _ => true
  | _ => false

/-- The call is a `Write`. -/
def Op.isWrite : Op → Bool
  | .Write _ => true
  | _ => false

section

variable {σ : Type} (canon : String → String) (W : ResponseWriter σ)

/-- One call on the writer: the state it leaves (results are dropped), `none`
for a panic.  The accessors return without touching anything; `Response`
leaves a new header map in the store. -/
def step (s : TappableResponseWriter σ × Heap) : Op → Option (TappableResponseWriter σ × Heap)
  | .WriteHeader c => TappableResponseWriter.WriteHeader W s.1 s.2 c
  | .Write data => (TappableResponseWriter.Write W s.1 s.2 data).map Prod.snd
  | .Header => some s
  | .HeaderSet k v =>
    (HeaderSet canon s.2.hdr (TappableResponseWriter.Header W s.1) k v).map
      (fun hdr => (s.1, { s.2 with hdr := hdr }))
  | .HeaderAdd k v =>
    (HeaderAdd canon s.2.hdr (TappableResponseWriter.Header W s.1) k v).map
      (fun hdr => (s.1, { s.2 with hdr := hdr }))
  | .Body => some s
  | .StatusCode => some s
  | .Response => some (s.1, (TappableResponseWriter.Response W s.1 s.2).2)

/-- A sequence of calls, one after the other. -/
def run : List Op → TappableResponseWriter σ × Heap → Option (TappableResponseWriter σ × Heap)
  | [], s => some s
  | op :: ops, s =>
    match step canon W s op with
    | none => none
    | some s1 => run ops s1

end

section

variable {σ : Type} (canon : String → String) (W : ResponseWriter σ)

/-- Every `Write` of the sequence is given a slice that is allocated when it
is called. -/
def writesValid : List Op → TappableResponseWriter σ × Heap → Bool
  | [], _ => true
  | op :: ops, s =>
    (match op with
      | .Write d => decide (s.2.bytes.Valid d)
      | _ => true) &&
    (match step canon W s op with
      | none => true
      | some s1 => writesValid ops s1)

/-- The bytes the argument of the most recent `Write` of the sequence held
when it was written; `acc` when the sequence has no `Write`. -/
def lastWritten : List Op → TappableResponseWriter σ × Heap → List Byte → List Byte
  | [], _, acc => acc
  | op :: ops, s, acc =>
    match step canon W s op with
    | none => acc
    | some s1 =>
      lastWritten ops s1
        (match op with
          | .Write d => s.2.bytes.read d
          | _ => acc)

end

/-- The argument of the most recent `Write` of a sequence, `acc` when it has
none. -/
def lastWrite : List Op → Option Slice → Option Slice
  | [], acc => acc
  | .Write d :: ops, _ => lastWrite ops (some d)
  | _ :: ops, acc => lastWrite ops acc

/-- Who a header mutation goes through: the tap's `Header()`, or the wrapped
writer's own `Header()`. -/
inductive Via where
  | tap
  | wrapped
deriving DecidableEq, Repr

/-- A header mutation: `Set` or `Add` on the headers obtained one way or the
other. -/
inductive HeaderMutation where
  | Set (via : Via) (key value : String)
  | Add (via : Via) (key value : String)
deriving DecidableEq, Repr

/-- The same mutation, made on the wrapped writer's own `Header()`. -/
def HeaderMutation.direct : HeaderMutation → HeaderMutation
  | .Set _ k v => .Set .wrapped k v
  | .Add _ k v => .Add .wrapped k v

section

variable {σ : Type} (canon : String → String) (W : ResponseWriter σ)

/-- The headers a mutation is made on. -/
def headerVia (rw : TappableResponseWriter σ) : Via → HttpHeader
  | .tap => TappableResponseWriter.Header W rw
  | .wrapped => W.Header rw.w

/-- One header mutation. -/
def mutate (rw : TappableResponseWriter σ) (hh : HdrHeap) : HeaderMutation → Option HdrHeap
  | .Set via k v => HeaderSet canon hh (headerVia W rw via) k v
  | .Add via k v => HeaderAdd canon hh (headerVia W rw via) k v

/-- A sequence of header mutations. -/
def mutateAll (rw : TappableResponseWriter σ) : List HeaderMutation → HdrHeap → Option HdrHeap
  | [], hh => some hh
  | x :: xs, hh =>
    match mutate canon W rw hh x with
    | none => none
    | some hh1 => mutateAll rw xs hh1

end

/-! ## Concrete stores for examples -/

/-- An empty store. -/
def Heap.empty : Heap :=
  { bytes := { cell := fun _ _ => 0, next := 0 },
    hdr := { strs := { cell := fun _ _ => "", next := 0 }, maps := fun _ => [], nextMap := 0 } }

/-- Go `[]byte(s)` for a literal: a fresh array holding `bs`. -/
def Heap.bytesLit (h : Heap) (bs : List Byte) : Slice × Heap :=
  let (s, m) := h.bytes.make bs.length bs.length
  (s, { h with bytes := { m with cell := fun a i =>
          if a = h.bytes.next then bs.getD i 0 else m.cell a i } })

/-- A key canonicalisation for the examples (their keys are canonical already). -/
def exCanon (s : String) : String := s

/-- A content sniffer for the examples. -/
def exDetect (_ : List Byte) : String := "text/plain; charset=utf-8"

/-- The recorder used in the examples. -/
def exWriter : ResponseWriter ResponseRecorder := ResponseRecorder.writer exCanon exDetect

/-- The bytes of `"hello"`. -/
def hello : List Byte := [104, 101, 108, 108, 111]

/-- The bytes of `"world"`. -/
def world : List Byte := [119, 111, 114, 108, 100]

/-- A store with a fresh recorder and the literals `[]byte("hello")` (array
0) and `[]byte("world")` (array 1). -/
def exStart : TappableResponseWriter ResponseRecorder × Heap :=
  let (rec, hdr) := ResponseRecorder.NewRecorder Heap.empty.hdr
  let h : Heap := { Heap.empty with hdr := hdr }
  let (_, h) := h.bytesLit hello
  let (_, h) := h.bytesLit world
  (TappableResponseWriter.New rec, h)

/-- The slice `[]byte("hello")` of `exStart`. -/
def exHello : Slice := .mk 0 0 5 5

/-- The slice `[]byte("world")` of `exStart`. -/
def exWorld : Slice := .mk 1 0 5 5

/-- The result of a call that returned; a panic leaves the state as given. -/
def returned {α β : Type} (d : β) (r : Option (α × β)) : β :=
  match r with
  | none => d
  | some x => x.2

/-- The state after `Write([]byte("hello"))` on `exStart`. -/
def exAfterHello : TappableResponseWriter ResponseRecorder × Heap :=
  returned exStart (TappableResponseWriter.Write exWriter exStart.1 exStart.2 exHello)

/-- The state after a further `Write([]byte("world"))`. -/
def exAfterWorld : TappableResponseWriter ResponseRecorder × Heap :=
  returned exAfterHello
    (TappableResponseWriter.Write exWriter exAfterHello.1 exAfterHello.2 exWorld)

/-- A writer whose `Write` fails without writing anything and whose
`WriteHeader` does nothing. -/
def exFailing : ResponseWriter Unit where
  Header := fun _ => none
  Write := fun _ hh _ _ => some ((0, some "broken pipe"), (), hh)
  WriteHeader := fun _ hh _ => some ((), hh)

/-- `exStart` with a recorder that logs its calls. -/
def exSpyStart : TappableResponseWriter (ResponseRecorder × List Call) :=
  TappableResponseWriter.New (exStart.1.w, [])

/-- The state after `WriteHeader(404)` on `exSpyStart`. -/
def exAfterStatus : TappableResponseWriter (ResponseRecorder × List Call) × Heap :=
  match TappableResponseWriter.WriteHeader (spy exWriter) exSpyStart exStart.2 404 with
  | none => (exSpyStart, exStart.2)
  | some x => x

/-- A writer around the failing writer whose buffer holds `"hello"` (built as
in the tests, `body: *bytes.NewBuffer(expected)`). -/
def exFailStart : TappableResponseWriter Unit :=
  { status := 0, body := Buffer.NewBuffer exHello, w := () }

/-- Go `b[0] = 'j'` on `b := tappable.Body()` taken after writing `"hello"`. -/
def exScribbled : Heap :=
  { exAfterHello.2 with
    bytes := exAfterHello.2.bytes.store (TappableResponseWriter.Body exAfterHello.1) 0 106 }

/-- The bytes of `"jello"`. -/
def jello : List Byte := [106, 101, 108, 108, 111]

/-- The snapshot `tappable.Response()` taken after writing `"hello"`, and the
store it leaves. -/
def exSnapshot : Response × Heap :=
  TappableResponseWriter.Response exWriter exAfterHello.1 exAfterHello.2

/-- After the snapshot: `Write([]byte("world"))`, then `WriteHeader(404)`. -/
def exAfterSnapshot : TappableResponseWriter ResponseRecorder × Heap :=
  let s := returned (exAfterHello.1, exSnapshot.2)
    (TappableResponseWriter.Write exWriter exAfterHello.1 exSnapshot.2 exWorld)
  match TappableResponseWriter.WriteHeader exWriter s.1 s.2 404 with
  | none => s
  | some x => x

/-- Go `tappable.Body()[1:3]` taken after writing `"hello"`: the bytes `"el"`,
inside the buffer's own array. -/
def exAliased : Slice := ((TappableResponseWriter.Body exAfterHello.1).sliceFrom 1).sliceTo 2

/-- The state after `Write(exAliased)`. -/
def exAfterAliased : TappableResponseWriter ResponseRecorder × Heap :=
  returned exAfterHello
    (TappableResponseWriter.Write exWriter exAfterHello.1 exAfterHello.2 exAliased)

/-- The writer of `exAfterHello` with status 200 recorded. -/
def exOK : TappableResponseWriter ResponseRecorder := { exAfterHello.1 with status := 200 }

/-- A handler that never calls `WriteHeader`: it writes `"hello"`, looks at
the body and the status, sets a header and takes a snapshot. -/
def exCalls : List Op :=
  [.Write exHello, .Body, .StatusCode, .Header, .HeaderSet "Foo" "bar", .Response]

/-- The state `exCalls` leaves when run on `exStart`. -/
def exAfterCalls : TappableResponseWriter ResponseRecorder × Heap :=
  match run exCanon exWriter exCalls exStart with
  | none => exStart
  | some x => x

/-- The state `exCalls` leaves when run on `exOK`, a writer with status 200. -/
def exAfterCallsOK : TappableResponseWriter ResponseRecorder × Heap :=
  match run exCanon exWriter exCalls (exOK, exAfterHello.2) with
  | none => (exOK, exAfterHello.2)
  | some x => x

/-- A handler that writes twice: `"hello"`, a status, a snapshot, `"world"`,
and a look at the body. -/
def exTwoWrites : List Op :=
  [.Write exHello, .WriteHeader 404, .Response, .Write exWorld, .Body]

/-- The state `exTwoWrites` leaves when run on `exStart`. -/
def exAfterTwoWrites : TappableResponseWriter ResponseRecorder × Heap :=
  match run exCanon exWriter exTwoWrites exStart with
  | none => exStart
  | some x => x

/-- A handler that sets the status twice: 200, then 404. -/
def exTwoStatuses : List Op := [.WriteHeader 200, .WriteHeader 404]

/-- The state `exTwoStatuses` leaves when run on `exStart`. -/
def exAfterTwoStatuses : TappableResponseWriter ResponseRecorder × Heap :=
  match run exCanon exWriter exTwoStatuses exStart with
  | none => exStart
  | some x => x

/-! ## Predicates used by the theorems -/

/-- The invariant of a run started on `New(w)` in the store `h0`, `last` being
the most recent `Write` argument so far: the arrays allocated in `h0` are as
they were, the buffer (if it has an array) uses one allocated later, and
`Body()` reads the bytes of `last`, or nothing when there was no `Write`. -/
structure BodyTracks {σ : Type} (h0 : Heap) (last : Option Slice)
    (s : TappableResponseWriter σ × Heap) : Prop where
  next_le : h0.bytes.next ≤ s.2.bytes.next
  frame : ∀ d, h0.bytes.Valid d → s.2.bytes.read d = h0.bytes.read d
  fresh : ∀ a o l c, s.1.body.buf = .mk a o l c → h0.bytes.next ≤ a
  body : s.2.bytes.read (TappableResponseWriter.Body s.1)
    = match last with
      | none => []
      | some d => h0.bytes.read d

/-- The header map `r` is well formed in `hh`: it has been made, its keys are
distinct (it is a Go map), and its values refer to allocated arrays. -/
structure HdrHeap.WF (hh : HdrHeap) (r : Nat) : Prop where
  allocated : r < hh.nextMap
  keys_nodup : ((hh.maps r).map Prod.fst).Nodup
  valid : ∀ p ∈ hh.maps r, hh.strs.Valid p.2

/-- What `Header.Clone` of map `r` returns: a new map with the keys of `r` in
the same number, every key with the same list of values (nil where it was
nil); the old maps and the allocated arrays are as before; the values of the
new map are nil or full-capacity windows of one new array. -/
structure Cloned (hh : HdrHeap) (r : Nat) (res : HttpHeader × HdrHeap) : Prop where
  ref : res.1 = some hh.nextMap
  keys : (res.2.maps hh.nextMap).map Prod.fst = (hh.maps r).map Prod.fst
  values : ∀ k, (mapGet (res.2.maps hh.nextMap) k).map res.2.strs.read
    = (mapGet (hh.maps r) k).map hh.strs.read
  nils : ∀ k, (mapGet (res.2.maps hh.nextMap) k).map Slice.isNil
    = (mapGet (hh.maps r) k).map Slice.isNil
  maps_frame : ∀ r1, r1 ≠ hh.nextMap → res.2.maps r1 = hh.maps r1
  strs_frame : ∀ s, hh.strs.Valid s → res.2.strs.read s = hh.strs.read s
  next_strs : res.2.strs.next = hh.strs.next + 1
  next_map : res.2.nextMap = hh.nextMap + 1
  place : ∀ p ∈ res.2.maps hh.nextMap, p.2 = .nil ∨ ∃ o l, p.2 = .mk hh.strs.next o l l

/-- What the loop of `Header.Clone` achieves from memory `strs`, entries
`rest`, the free part of `sv` starting at index `off` of array `A`, and the
partial copy `h2`: the keys of `rest` are added after those of `h2`, each with
a slice that reads as the original did and is nil exactly when the original
was; only the cells of `A` from `off` on are written; every new slice is nil
or lies in `A`. -/
structure CloneLoopSpec (A : Nat) (strs : Mem String) (rest : HeaderMap) (off : Nat)
    (h2 : HeaderMap) (r : Mem String × HeaderMap) : Prop where
  keys : r.2.map Prod.fst = h2.map Prod.fst ++ rest.map Prod.fst
  old : ∀ k, mapGet rest k = none → mapGet r.2 k = mapGet h2 k
  copied : ∀ k vv, mapGet rest k = some vv →
    ∃ s, mapGet r.2 k = some s ∧ r.1.read s = strs.read vv ∧ s.isNil = vv.isNil
  frame : ∀ a i, (a ≠ A ∨ i < off ∨ off + countValues rest ≤ i) →
    r.1.cell a i = strs.cell a i
  next_eq : r.1.next = strs.next
  place : ∀ p ∈ r.2, p ∈ h2 ∨ p.2 = .nil ∨ ∃ o l, p.2 = .mk A o l l


/-- What `Reset` followed by `Write(p)` does to a buffer: it reports `len(p)`
bytes and no error, holds exactly the bytes of `p`, and has written to no
array but its own or a new one. -/
structure Buffer.Rewritten (b : Buffer) (m : Mem Byte) (p : Slice)
    (r : (Nat × Error) × Buffer × Mem Byte) : Prop where
  result : r.1 = (p.len, none)
  contents : r.2.2.read r.2.1.Bytes = m.read p
  next_le : m.next ≤ r.2.2.next
  frame : ∀ s, m.Valid s →
    (∀ a o l c a1 o1 l1 c1, b.buf = .mk a o l c → s = .mk a1 o1 l1 c1 → a1 ≠ a) →
    r.2.2.read s = m.read s

/-! ## Memory lemmas -/

namespace Slice

@[simp] theorem len_nil : Slice.nil.len = 0 := rfl
@[simp] theorem len_mk (a o l c : Nat) : (Slice.mk a o l c).len = l := rfl
@[simp] theorem cap_nil : Slice.nil.cap = 0 := rfl
@[simp] theorem cap_mk (a o l c : Nat) : (Slice.mk a o l c).cap = c := rfl
@[simp] theorem isNil_nil : Slice.nil.isNil = true := rfl
@[simp] theorem isNil_mk (a o l c : Nat) : (Slice.mk a o l c).isNil = false := rfl

end Slice

namespace Mem

variable {α : Type}

@[simp] theorem length_read (m : Mem α) (s : Slice) : (m.read s).length = s.len := by
  cases s <;> simp [read]

theorem read_eq_nil_of_len (m : Mem α) (s : Slice) (h : s.len = 0) : m.read s = [] := by
  apply List.eq_nil_of_length_eq_zero
  simp [h]

/-- Reading a window just overwritten with `vals` gives `vals`. -/
theorem read_window (m : Mem α) (a o c2 : Nat) (vals : List α) :
    ({ m with cell := fun a1 i =>
        if a1 = a ∧ o ≤ i ∧ i < o + vals.length then vals.getD (i - o) (m.cell a1 i)
        else m.cell a1 i } : Mem α).read (.mk a o vals.length c2) = vals := by
  apply List.ext_getElem
  · simp
  · intro i h1 h2
    have hc : o ≤ o + i ∧ o + i < o + vals.length := ⟨by omega, by omega⟩
    simp only [read, List.getElem_map, List.getElem_range, hc, and_self, if_true]
    rw [Nat.add_sub_cancel_left, List.getD_eq_getElem _ _ h2]

/-- Reading the destination window after `copy` gives the bytes copied. -/
theorem read_copy_dst (m : Mem α) (a o l c c2 : Nat) (src : Slice) :
    (m.copy (.mk a o l c) src).2.read (.mk a o (min l src.len) c2)
      = (m.read src).take (min l src.len) := by
  have hlen : ((m.read src).take (min l src.len)).length = min l src.len := by
    simp
  have h := read_window m a o c2 ((m.read src).take (min l src.len))
  rw [hlen] at h
  exact h

/-- `copy` changes no array but the destination's. -/
theorem read_copy_other (m : Mem α) (dst src s : Slice)
    (h : ∀ a o l c a1 o1 l1 c1, dst = .mk a o l c → s = .mk a1 o1 l1 c1 → a1 ≠ a) :
    (m.copy dst src).2.read s = m.read s := by
  cases dst with
  | nil => rfl
  | mk a o l c =>
    cases s with
    | nil => rfl
    | mk a1 o1 l1 c1 =>
      have hne : a1 ≠ a := h a o l c a1 o1 l1 c1 rfl rfl
      simp [read, copy, hne]

/-- A `copy` of no element changes nothing that can be read. -/
theorem read_copy_zero (m : Mem α) (dst src s : Slice) (h : min dst.len src.len = 0) :
    (m.copy dst src).2.read s = m.read s := by
  cases dst with
  | nil => rfl
  | mk a o l c =>
    cases s with
    | nil => rfl
    | mk a1 o1 l1 c1 =>
      have h0 : min l src.len = 0 := h
      simp [read, copy, h0]

@[simp] theorem next_copy (m : Mem α) (dst src : Slice) : (m.copy dst src).2.next = m.next := by
  cases dst <;> rfl

@[simp] theorem fst_copy (m : Mem α) (dst src : Slice) :
    (m.copy dst src).1 = min dst.len src.len := by
  cases dst <;> rfl

@[simp] theorem next_store (m : Mem α) (s : Slice) (i : Nat) (v : α) :
    (m.store s i v).next = m.next := by
  cases s <;> rfl

@[simp] theorem next_make [Inhabited α] (m : Mem α) (l c : Nat) :
    (m.make l c).2.next = m.next + 1 := rfl

@[simp] theorem fst_make [Inhabited α] (m : Mem α) (l c : Nat) :
    (m.make l c).1 = .mk m.next 0 l c := rfl

/-- Allocation leaves every allocated array as it was. -/
theorem read_make [Inhabited α] (m : Mem α) (l c : Nat) (s : Slice) (h : m.Valid s) :
    (m.make l c).2.read s = m.read s := by
  cases s with
  | nil => rfl
  | mk a1 o1 l1 c1 =>
    have hne : a1 ≠ m.next := Nat.ne_of_lt h
    simp [read, make, hne]

theorem Valid.mono {m m1 : Mem α} {s : Slice} (h : m.Valid s) (hle : m.next ≤ m1.next) :
    m1.Valid s := by
  cases s with
  | nil => trivial
  | mk a o l c => exact Nat.lt_of_lt_of_le h hle

end Mem

/-! ## `bytes.Buffer` lemmas -/

namespace Mem

variable {α : Type}

theorem read_copy_self (m : Mem α) (a o c c2 : Nat) (src : Slice) :
    (m.copy (.mk a o src.len c) src).2.read (.mk a o src.len c2) = m.read src := by
  have h := read_copy_dst m a o src.len c c2 src
  rw [Nat.min_self] at h
  rw [h]
  exact List.take_of_length_le (by simp)

/-- `copy` into the array about to be allocated, or just allocated, leaves
the older arrays alone. -/
theorem read_copy_next (m m1 : Mem α) (o l c : Nat) (src s : Slice) (hs : m.Valid s) :
    (m1.copy (.mk m.next o l c) src).2.read s = m1.read s := by
  apply read_copy_other
  intro a o2 l2 c2 a1 o1 l1 c1 h1 h2
  subst h2
  cases h1
  exact Nat.ne_of_lt hs

end Mem

namespace Buffer

theorem write_reset (b : Buffer) (m : Mem Byte) (p : Slice) (hp : m.Valid p) :
    b.Rewritten m p (b.Reset.Write m p) := by
  rcases b with ⟨buf, off⟩
  cases buf with
  | nil =>
    by_cases h0 : p.len = 0
    · have e : (Buffer.mk .nil off).Reset.Write m p = ((0, none), ⟨.nil, 0⟩, m) := by
        simp [Reset, Write, tryGrowByReslice, Slice.sliceTo, Slice.sliceFrom, h0, Mem.copy]
      rw [e]
      refine ⟨by simp [h0], ?_, Nat.le_refl _, fun _ _ _ => rfl⟩
      rw [Mem.read_eq_nil_of_len m p h0]
      rfl
    · by_cases h1 : p.len ≤ smallBufferSize
      · have e : (Buffer.mk .nil off).Reset.Write m p
            = ((p.len, none), ⟨.mk m.next 0 p.len smallBufferSize, 0⟩,
               ((m.make p.len smallBufferSize).2.copy
                  (.mk m.next 0 p.len smallBufferSize) p).2) := by
          simp [Reset, Write, tryGrowByReslice, grow, Len, Slice.sliceTo, Slice.sliceFrom,
            h0, h1]
        rw [e]
        refine ⟨rfl, ?_, by simp, ?_⟩
        · simp only [Bytes, Slice.sliceFrom, Nat.add_zero, Nat.sub_zero]
          rw [Mem.read_copy_self, Mem.read_make _ _ _ _ hp]
        · intro s hs _
          simp only
          rw [Mem.read_copy_next _ _ _ _ _ _ _ hs, Mem.read_make _ _ _ _ hs]
      · have e : (Buffer.mk .nil off).Reset.Write m p
            = ((p.len, none), ⟨.mk m.next 0 p.len (roundupsize p.len), 0⟩,
               (((m.make p.len (roundupsize p.len)).2.copy
                    (.mk m.next 0 p.len (roundupsize p.len)) .nil).2.copy
                  (.mk m.next 0 p.len (roundupsize p.len)) p).2) := by
          simp [Reset, Write, tryGrowByReslice, grow, growSlice, Len, Slice.sliceTo,
            Slice.sliceFrom, h0, h1]
        rw [e]
        refine ⟨rfl, ?_, by simp, ?_⟩
        · simp only [Bytes, Slice.sliceFrom, Nat.add_zero, Nat.sub_zero]
          rw [Mem.read_copy_self, Mem.read_copy_next _ _ _ _ _ _ _ hp,
            Mem.read_make _ _ _ _ hp]
        · intro s hs _
          simp only
          rw [Mem.read_copy_next _ _ _ _ _ _ _ hs, Mem.read_copy_next _ _ _ _ _ _ _ hs,
            Mem.read_make _ _ _ _ hs]
  | mk a o l c =>
    by_cases h0 : p.len ≤ c
    · have e : (Buffer.mk (.mk a o l c) off).Reset.Write m p
          = ((p.len, none), ⟨.mk a o p.len c, 0⟩, (m.copy (.mk a o p.len c) p).2) := by
        simp [Reset, Write, tryGrowByReslice, Slice.sliceTo, Slice.sliceFrom, h0]
      rw [e]
      refine ⟨rfl, ?_, by simp, ?_⟩
      · simp only [Bytes, Slice.sliceFrom, Nat.add_zero, Nat.sub_zero]
        rw [Mem.read_copy_self]
      · intro s _ hne
        simp only
        apply Mem.read_copy_other
        intro a2 o2 l2 c2 a1 o1 l1 c1 h1 h2
        cases h1
        exact hne a o l c a1 o1 l1 c1 rfl h2
    · have h1 : ¬ p.len ≤ c / 2 := by omega
      have e : (Buffer.mk (.mk a o l c) off).Reset.Write m p
          = ((p.len, none),
             ⟨.mk m.next 0 p.len
                (roundupsize (if p.len < 2 * c then 2 * c else p.len)), 0⟩,
             (((m.make (if p.len < 2 * c then 2 * c else p.len)
                  (roundupsize (if p.len < 2 * c then 2 * c else p.len))).2.copy
                 (.mk m.next 0 (if p.len < 2 * c then 2 * c else p.len)
                   (roundupsize (if p.len < 2 * c then 2 * c else p.len)))
                 (.mk a o 0 c)).2.copy
                (.mk m.next 0 p.len
                  (roundupsize (if p.len < 2 * c then 2 * c else p.len))) p).2) := by
        simp [Reset, Write, tryGrowByReslice, grow, growSlice, Len, Slice.sliceTo,
          Slice.sliceFrom, h0, h1]
      rw [e]
      refine ⟨rfl, ?_, by simp, ?_⟩
      · simp only [Bytes, Slice.sliceFrom, Nat.add_zero, Nat.sub_zero]
        rw [Mem.read_copy_self, Mem.read_copy_next _ _ _ _ _ _ _ hp,
          Mem.read_make _ _ _ _ hp]
      · intro s hs _
        simp only
        rw [Mem.read_copy_next _ _ _ _ _ _ _ hs, Mem.read_copy_next _ _ _ _ _ _ _ hs,
          Mem.read_make _ _ _ _ hs]

end Buffer

namespace Buffer

/-- After `Reset`, `Write(p)` always reports `len(p)` bytes and a nil error. -/
theorem fst_write_reset (b : Buffer) (m : Mem Byte) (p : Slice) :
    (b.Reset.Write m p).1 = (p.len, none) := by
  rcases b with ⟨buf, off⟩
  cases buf with
  | nil =>
    by_cases h0 : p.len = 0
    · simp [Reset, Write, tryGrowByReslice, Slice.sliceTo, Slice.sliceFrom, h0]
    · by_cases h1 : p.len ≤ smallBufferSize
      · simp [Reset, Write, tryGrowByReslice, grow, Len, Slice.sliceTo, Slice.sliceFrom,
          h0, h1]
      · simp [Reset, Write, tryGrowByReslice, grow, growSlice, Len, Slice.sliceTo,
          Slice.sliceFrom, h0, h1]
  | mk a o l c =>
    by_cases h0 : p.len ≤ c
    · simp [Reset, Write, tryGrowByReslice, Slice.sliceTo, Slice.sliceFrom, h0]
    · have h1 : ¬ p.len ≤ c / 2 := by omega
      simp [Reset, Write, tryGrowByReslice, grow, growSlice, Len, Slice.sliceTo,
        Slice.sliceFrom, h0, h1]

end Buffer

namespace TappableResponseWriter

variable {σ : Type} (W : ResponseWriter σ)

/-- `Write` in closed form: the buffer step, then the wrapped writer's `Write`
on the same slice, whose result is returned as it is. -/
theorem Write_eq (rw : TappableResponseWriter σ) (h : Heap) (data : Slice) :
    Write W rw h data =
      (W.Write rw.w h.hdr (rw.body.Reset.Write h.bytes data).2.2 data).map
        (fun x => (x.1,
          { status := rw.status, body := (rw.body.Reset.Write h.bytes data).2.1, w := x.2.1 },
          { bytes := (rw.body.Reset.Write h.bytes data).2.2, hdr := x.2.2 })) := by
  have h1 := Buffer.fst_write_reset rw.body h.bytes data
  have ha : (rw.body.Reset.Write h.bytes data).1.1 = data.len := by rw [h1]
  have hb : (rw.body.Reset.Write h.bytes data).1.2 = none := by rw [h1]
  simp only [Write, ha, hb, ne_eq, not_true_eq_false, if_false]
  cases W.Write rw.w h.hdr (rw.body.Reset.Write h.bytes data).2.2 data <;> rfl

end TappableResponseWriter

/-! ## Theorems about `Write` -/

namespace TappableResponseWriter

variable {σ : Type} (W : ResponseWriter σ)

/-- What a returning `Write` leaves behind. -/
theorem Write_some {rw rw1 : TappableResponseWriter σ} {h h1 : Heap} {data : Slice}
    {r : Int × Error} (e : Write W rw h data = some (r, rw1, h1)) :
    rw1.body = (rw.body.Reset.Write h.bytes data).2.1 ∧
    h1.bytes = (rw.body.Reset.Write h.bytes data).2.2 ∧
    rw1.status = rw.status ∧
    W.Write rw.w h.hdr (rw.body.Reset.Write h.bytes data).2.2 data = some (r, rw1.w, h1.hdr) := by
  rw [Write_eq] at e
  cases hw : W.Write rw.w h.hdr (rw.body.Reset.Write h.bytes data).2.2 data with
  | none => rw [hw] at e; cases e
  | some x =>
    rw [hw] at e
    simp only [Option.map_some', Option.some.injEq, Prod.mk.injEq] at e
    obtain ⟨e1, e2, e3⟩ := e
    subst e1 e2 e3
    exact ⟨rfl, rfl, rfl, rfl⟩

/-- After a returning `Write(data)`, `Body()` reads the bytes of `data`. -/
theorem read_Body_of_Write {rw rw1 : TappableResponseWriter σ} {h h1 : Heap} {data : Slice}
    {r : Int × Error} (hv : h.bytes.Valid data)
    (e : Write W rw h data = some (r, rw1, h1)) :
    h1.bytes.read (Body rw1) = h.bytes.read data := by
  obtain ⟨eb, em, _, _⟩ := Write_some W e
  rw [Body, eb, em]
  exact (Buffer.write_reset rw.body h.bytes data hv).contents

/-- C1: `Write` replaces rather than appends.  After `Write(b1)` and then
`Write(b2)` have returned, `Body()` reads exactly the bytes `b2` held when it
was written; in particular it is not `b1 ++ b2` unless `b1` is empty. -/
theorem write_replaces (rw rw1 rw2 : TappableResponseWriter σ) (h h1 h2 : Heap)
    (b1 b2 : Slice) (r1 r2 : Int × Error)
    (hv : h1.bytes.Valid b2)
    (e1 : Write W rw h b1 = some (r1, rw1, h1))
    (e2 : Write W rw1 h1 b2 = some (r2, rw2, h2)) :
    h2.bytes.read (Body rw2) = h1.bytes.read b2 ∧
    (b1.len ≠ 0 → h2.bytes.read (Body rw2) ≠ h.bytes.read b1 ++ h1.bytes.read b2) := by
  have hb := read_Body_of_Write W hv e2
  have _ := e1
  refine ⟨hb, fun hne heq => ?_⟩
  have hl := congrArg List.length heq
  rw [hb] at hl
  simp only [List.length_append, Mem.length_read] at hl
  omega

/-- Example for `write_replaces`: `"hello"` then `"world"` on a fresh recorder. -/
theorem write_replaces_witness :
    exAfterHello.2.bytes.Valid exWorld ∧
    Write exWriter exStart.1 exStart.2 exHello = some ((5, none), exAfterHello) ∧
    Write exWriter exAfterHello.1 exAfterHello.2 exWorld = some ((5, none), exAfterWorld) ∧
    exAfterWorld.2.bytes.read (Body exAfterWorld.1) = exAfterHello.2.bytes.read exWorld ∧
    (exHello.len ≠ 0 → exAfterWorld.2.bytes.read (Body exAfterWorld.1)
      ≠ exStart.2.bytes.read exHello ++ exAfterHello.2.bytes.read exWorld) :=
  ⟨by decide, rfl, rfl,
   write_replaces exWriter exStart.1 exAfterHello.1 exAfterWorld.1 exStart.2 exAfterHello.2
     exAfterWorld.2 exHello exWorld (5, none) (5, none) (by decide) rfl rfl⟩

end TappableResponseWriter


/-! ## The recorder never panics on `Write` -/

namespace ResponseRecorder

theorem WriteHeader_200 (rw : ResponseRecorder) (hh : HdrHeap)
    (hw : rw.wroteHeader = false) :
    ∃ (rw1 : ResponseRecorder) (hh1 : HdrHeap), rw.WriteHeader hh 200 = some (rw1, hh1) ∧
      rw1.Body = rw.Body ∧ rw1.Code = 200 := by
  simp [WriteHeader, hw]

theorem Write_fresh (canon : String → String) (detect : List Byte → String)
    (rw : ResponseRecorder) (hh : HdrHeap) (m : Mem Byte) (buf : Slice) (body : List Byte)
    (hw : rw.wroteHeader = false) (hb : rw.Body = some body) :
    ∃ (rw1 : ResponseRecorder) (hh1 : HdrHeap),
      Write canon detect rw hh m buf = some (((buf.len : Int), none), rw1, hh1) ∧
      rw1.Body = some (body ++ m.read buf) ∧ rw1.Code = 200 := by
  have hset : ∃ hh2 : HdrHeap,
      (if ¬ (mapGet (hh.maps rw.HeaderMap) "Content-Type").isSome = true ∧
            ¬ HeaderGet canon hh (some rw.HeaderMap) "Transfer-Encoding" ≠ ""
        then HeaderSet canon hh (some rw.HeaderMap) "Content-Type" (detect (m.read buf))
        else some hh) = some hh2 := by
    split
    · exact ⟨_, rfl⟩
    · exact ⟨_, rfl⟩
  obtain ⟨hh2, e2⟩ := hset
  obtain ⟨rw1, hh1, e, hb1, hc1⟩ := WriteHeader_200 rw hh2 hw
  have hwh : writeHeader canon detect rw hh (m.read buf) = some (rw1, hh1) := by
    unfold writeHeader
    simp only [hw, Bool.false_eq_true, if_false]
    rw [e2]
    exact e
  refine ⟨{ rw1 with Body := some (body ++ m.read buf) }, hh1, ?_, rfl, hc1⟩
  rw [hb] at hb1
  have hallow : bodyAllowedForStatus 200 = true := by decide
  simp [Write, hwh, hb1, hc1, hallow]

end ResponseRecorder

namespace TappableResponseWriter

variable {σ : Type} (W : ResponseWriter σ)

/-- `Write` returns whatever the wrapped `Write` returns, after the buffer step. -/
theorem Write_of_wrapped {rw : TappableResponseWriter σ} {h : Heap} {data : Slice}
    {res : Int × Error} {w1 : σ} {hdr1 : HdrHeap}
    (e : W.Write rw.w h.hdr (bufferStep rw h data).2.2 data = some (res, w1, hdr1)) :
    Write W rw h data = some (res,
      { status := rw.status, body := (bufferStep rw h data).2.1, w := w1 },
      { bytes := (bufferStep rw h data).2.2, hdr := hdr1 }) := by
  rw [Write_eq]
  unfold bufferStep at e
  rw [e]
  rfl

/-- C2: on a writer built by `New` around a fresh recorder, `Write(b)` returns
`len(b)` and no error, `Body()` then reads exactly the bytes of `b`, and the
recorder's recorded body is those bytes too (also for an empty `b`). -/
theorem write_fresh_recorder (canon : String → String) (detect : List Byte → String)
    (hh0 : HdrHeap) (m : Mem Byte) (b : Slice) (hv : m.Valid b) :
    ∃ rw1 h1,
      Write (ResponseRecorder.writer canon detect)
          (New (ResponseRecorder.NewRecorder hh0).1)
          { bytes := m, hdr := (ResponseRecorder.NewRecorder hh0).2 } b
        = some (((b.len : Int), none), rw1, h1) ∧
      h1.bytes.read (Body rw1) = m.read b ∧
      rw1.w.Body = some (m.read b) := by
  obtain ⟨rec1, hh1, e, hb, _⟩ := ResponseRecorder.Write_fresh canon detect
    (ResponseRecorder.NewRecorder hh0).1 (ResponseRecorder.NewRecorder hh0).2
    (bufferStep (New (ResponseRecorder.NewRecorder hh0).1)
      { bytes := m, hdr := (ResponseRecorder.NewRecorder hh0).2 } b).2.2 b [] rfl rfl
  have hfr := (Buffer.write_reset (New (ResponseRecorder.NewRecorder hh0).1).body m b hv)
  have e2 := @Write_of_wrapped _ (ResponseRecorder.writer canon detect)
    (New (ResponseRecorder.NewRecorder hh0).1)
    { bytes := m, hdr := (ResponseRecorder.NewRecorder hh0).2 } b _ _ _ e
  refine ⟨_, _, e2, ?_, ?_⟩
  · exact hfr.contents
  · rw [hb, List.nil_append]
    congr 1
    apply hfr.frame b hv
    intro a o l c a1 o1 l1 c1 hnil
    cases hnil

/-- Example for `write_fresh_recorder`: `[]byte("hello")`. -/
theorem write_fresh_recorder_witness :
    exStart.2.bytes.Valid exHello ∧
    ∃ rw1 h1,
      Write (ResponseRecorder.writer exCanon exDetect)
          (New (ResponseRecorder.NewRecorder Heap.empty.hdr).1)
          { bytes := exStart.2.bytes, hdr := (ResponseRecorder.NewRecorder Heap.empty.hdr).2 }
          exHello
        = some (((exHello.len : Int), none), rw1, h1) ∧
      h1.bytes.read (Body rw1) = exStart.2.bytes.read exHello ∧
      rw1.w.Body = some (exStart.2.bytes.read exHello) :=
  ⟨by decide,
   write_fresh_recorder exCanon exDetect Heap.empty.hdr exStart.2.bytes exHello (by decide)⟩

/-- `WriteHeader(c)` records `c` and calls the wrapped `WriteHeader(c)` once: the
wrapped writer, made to log its calls, is in the state its own `WriteHeader(c)`
produced and its log has grown by that single entry.  Nothing else changes. -/
theorem WriteHeader_spy (rw : TappableResponseWriter (σ × List Call)) (h : Heap)
    (c : Int) (w1 : σ) (hdr1 : HdrHeap)
    (e : W.WriteHeader rw.w.1 h.hdr c = some (w1, hdr1)) :
    ∃ rw1 h1, WriteHeader (spy W) rw h c = some (rw1, h1) ∧
      StatusCode rw1 = c ∧
      rw1.w = (w1, rw.w.2 ++ [Call.WriteHeader c]) ∧
      h1.hdr = hdr1 ∧ h1.bytes = h.bytes ∧ rw1.body = rw.body := by
  refine ⟨{ status := c, body := rw.body, w := (w1, rw.w.2 ++ [Call.WriteHeader c]) },
    { bytes := h.bytes, hdr := hdr1 }, ?_, rfl, rfl, rfl, rfl, rfl⟩
  simp [WriteHeader, spy, e]

/-- C4: the writer returned by `New(w)` has status 0 and an empty body (a nil
slice, read as no bytes in any memory), and it holds `w`: its `Header()` is
the header of `w`. -/
theorem new_initial (w : σ) (m : Mem Byte) :
    StatusCode (New w) = 0 ∧
    Body (New w) = Slice.nil ∧ m.read (Body (New w)) = [] ∧
    (New w).w = w ∧ Header W (New w) = W.Header w :=
  ⟨rfl, rfl, rfl, rfl, rfl⟩

end TappableResponseWriter

/-! ## Sharing between `Body()`, snapshots and the buffer -/

namespace TappableResponseWriter

variable {σ : Type} (W : ResponseWriter σ)

/-- C5, at a failing input: after `Write([]byte("hello"))`, `b := Body()` and
`b[0] = 'j'`, a second `Body()` reads `"jello"`, and so does the body of a
snapshot taken afterwards: the slice `Body()` returns is the buffer's own. -/
theorem body_shares_buffer :
    exAfterHello.2.bytes.read (Body exAfterHello.1) = hello ∧
    exScribbled.bytes.read (Body exAfterHello.1) = jello ∧
    ((Response exWriter exAfterHello.1 exScribbled).1.Body.ReadAll exScribbled.bytes).1
      = jello := by
  decide

/-- C8, at a failing input: a snapshot taken after `Write([]byte("hello"))`
reads `"hello"`; after `Write([]byte("world"))` and `WriteHeader(404)` on the
writer the same snapshot reads `"world"`.  Its `StatusCode` stays 0. -/
theorem snapshot_body_follows_write :
    (exSnapshot.1.Body.ReadAll exSnapshot.2.bytes).1 = hello ∧
    StatusCode exAfterSnapshot.1 = 404 ∧
    Body exAfterSnapshot.1 = exSnapshot.1.Body.Bytes ∧
    (exSnapshot.1.Body.ReadAll exAfterSnapshot.2.bytes).1 = world ∧
    exSnapshot.1.StatusCode = 0 := by
  decide

/-- C9, at a failing input: `Write(d)` with `d := Body()[1:3]` taken after
`Write([]byte("hello"))`.  `d` holds `"el"` when `Write` is called; the buffer
step copies it to the start of the array it lies in, so the recorder receives
`"ll"`, while `Body()` reads `"el"`. -/
theorem write_forwards_overwritten_bytes :
    exAfterHello.2.bytes.read exAliased = [101, 108] ∧
    Write exWriter exAfterHello.1 exAfterHello.2 exAliased
      = some ((2, none), exAfterAliased) ∧
    exAfterHello.1.w.Body = some hello ∧
    exAfterAliased.1.w.Body = some (hello ++ [108, 108]) ∧
    exAfterAliased.2.bytes.read (Body exAfterAliased.1) = [101, 108] :=
  ⟨by decide, rfl, by decide, by decide, by decide⟩

/-- `Write` hands `data` to the wrapped writer once and returns its result;
the bytes under `data` are then the caller's, provided `data` does not lie in
the buffer's array. -/
theorem Write_spy (rw : TappableResponseWriter (σ × List Call)) (h : Heap) (data : Slice)
    (res : Int × Error) (w1 : σ) (hdr1 : HdrHeap)
    (e : W.Write rw.w.1 h.hdr (bufferStep rw h data).2.2 data = some (res, w1, hdr1)) :
    (∃ rw1 h1, Write (spy W) rw h data = some (res, rw1, h1) ∧
      rw1.w = (w1, rw.w.2 ++ [Call.Write ((bufferStep rw h data).2.2.read data)]) ∧
      h1.hdr = hdr1) ∧
    (h.bytes.Valid data →
      (∀ a o l c a1 o1 l1 c1, rw.body.buf = .mk a o l c → data = .mk a1 o1 l1 c1 → a1 ≠ a) →
      (bufferStep rw h data).2.2.read data = h.bytes.read data) := by
  constructor
  · refine ⟨_, _, @Write_of_wrapped _ (spy W) rw h data res (w1, _) hdr1 ?_, rfl, rfl⟩
    show (match W.Write rw.w.1 h.hdr (bufferStep rw h data).2.2 data with
      | none => none
      | some (res, w, hh) =>
        some (res, (w, rw.w.2 ++ [Call.Write ((bufferStep rw h data).2.2.read data)]), hh))
      = _
    rw [e]
  · intro hv hne
    exact (Buffer.write_reset rw.body h.bytes data hv).frame data hv hne

/-- C10: the tap is updated even when the real write fails.  Whatever the
wrapped `Write` returns for `data`, an error or a short count included,
`Write` returns just that, and `Body()` then reads exactly the bytes of
`data`: nothing of the earlier contents is left. -/
theorem write_taps_failed_write (rw : TappableResponseWriter σ) (h : Heap) (data : Slice)
    (n : Int) (err : Error) (w1 : σ) (hdr1 : HdrHeap)
    (hv : h.bytes.Valid data)
    (hfail : err ≠ none ∨ n ≠ (data.len : Int))
    (e : W.Write rw.w h.hdr (bufferStep rw h data).2.2 data = some ((n, err), w1, hdr1)) :
    ∃ rw1 h1, Write W rw h data = some ((n, err), rw1, h1) ∧
      h1.bytes.read (Body rw1) = h.bytes.read data ∧
      (h1.bytes.read (Body rw1)).length = data.len ∧
      rw1.w = w1 := by
  have _ := hfail
  have e1 := Write_of_wrapped W e
  have hb := read_Body_of_Write W hv e1
  refine ⟨_, _, e1, hb, ?_, rfl⟩
  rw [hb, Mem.length_read]

/-- Example for `write_taps_failed_write`: `"hello"` buffered, then a write of
`"world"` that fails with `(0, "broken pipe")`. -/
theorem write_taps_failed_write_witness :
    exStart.2.bytes.read (Body exFailStart) = hello ∧
    exStart.2.bytes.Valid exWorld ∧
    ((some "broken pipe" : Error) ≠ none ∨ (0 : Int) ≠ (exWorld.len : Int)) ∧
    exFailing.Write exFailStart.w exStart.2.hdr (bufferStep exFailStart exStart.2 exWorld).2.2
      exWorld = some ((0, some "broken pipe"), (), exStart.2.hdr) ∧
    ∃ rw1 h1, Write exFailing exFailStart exStart.2 exWorld
        = some ((0, some "broken pipe"), rw1, h1) ∧
      h1.bytes.read (Body rw1) = exStart.2.bytes.read exWorld ∧
      (h1.bytes.read (Body rw1)).length = exWorld.len ∧
      rw1.w = () :=
  ⟨by decide, by decide, Or.inl (by decide), rfl,
   write_taps_failed_write exFailing exFailStart exStart.2 exWorld 0 (some "broken pipe") ()
     exStart.2.hdr (by decide) (Or.inl (by decide)) rfl⟩

end TappableResponseWriter

/-! ## Map lemmas -/

theorem mapGet_mapSet_self (m : HeaderMap) (k : String) (v : Slice) :
    mapGet (mapSet m k v) k = some v := by
  induction m with
  | nil => simp [mapSet, mapGet]
  | cons p rest ih =>
    obtain ⟨k1, v1⟩ := p
    by_cases h : k1 = k
    · simp [mapSet, mapGet, h]
    · simp [mapSet, mapGet, h, ih]

theorem mapGet_mapSet_ne (m : HeaderMap) (k k2 : String) (v : Slice) (hne : k2 ≠ k) :
    mapGet (mapSet m k v) k2 = mapGet m k2 := by
  induction m with
  | nil => simp [mapSet, mapGet, hne.symm]
  | cons p rest ih =>
    obtain ⟨k1, v1⟩ := p
    by_cases h : k1 = k
    · subst h
      simp [mapSet, mapGet, hne.symm]
    · by_cases h2 : k1 = k2
      · subst h2
        simp [mapSet, mapGet, h]
      · simp [mapSet, mapGet, h, h2, ih]

theorem mapSet_of_none (m : HeaderMap) (k : String) (v : Slice) (h : mapGet m k = none) :
    mapSet m k v = m ++ [(k, v)] := by
  induction m with
  | nil => rfl
  | cons p rest ih =>
    obtain ⟨k1, v1⟩ := p
    by_cases h1 : k1 = k
    · simp [mapGet, h1] at h
    · simp only [mapGet, h1, if_false] at h
      simp [mapSet, h1, ih h]

theorem mapGet_none_of_not_mem (m : HeaderMap) (k : String) (h : k ∉ m.map Prod.fst) :
    mapGet m k = none := by
  induction m with
  | nil => rfl
  | cons p rest ih =>
    obtain ⟨k1, v1⟩ := p
    simp only [List.map_cons, List.mem_cons, not_or] at h
    have h1 : ¬ k1 = k := fun e => h.1 e.symm
    simp [mapGet, h1, ih h.2]

theorem mem_of_mapGet (m : HeaderMap) (k : String) (v : Slice) (h : mapGet m k = some v) :
    (k, v) ∈ m := by
  induction m with
  | nil => simp [mapGet] at h
  | cons p rest ih =>
    obtain ⟨k1, v1⟩ := p
    by_cases h1 : k1 = k
    · simp only [mapGet, h1, if_true, Option.some.injEq] at h
      simp [h1, h]
    · simp only [mapGet, h1, if_false] at h
      exact List.mem_cons_of_mem _ (ih h)

theorem mem_mapSet (m : HeaderMap) (k : String) (v : Slice) (p : String × Slice)
    (h : p ∈ mapSet m k v) : p ∈ m ∨ p = (k, v) := by
  induction m with
  | nil =>
    simp only [mapSet, List.mem_singleton] at h
    exact Or.inr h
  | cons q rest ih =>
    obtain ⟨k1, v1⟩ := q
    by_cases h1 : k1 = k
    · simp only [mapSet, h1, if_true, List.mem_cons] at h
      rcases h with h | h
      · exact Or.inr h
      · exact Or.inl (List.mem_cons_of_mem _ h)
    · simp only [mapSet, h1, if_false, List.mem_cons] at h
      rcases h with h | h
      · exact Or.inl (by simp [h])
      · rcases ih h with h | h
        · exact Or.inl (List.mem_cons_of_mem _ h)
        · exact Or.inr h

/-! ## `Header.Clone` -/

theorem Mem.read_congr {α : Type} (m1 m2 : Mem α) (s : Slice)
    (h : ∀ a o l c, s = .mk a o l c → ∀ i, o ≤ i → i < o + l → m1.cell a i = m2.cell a i) :
    m1.read s = m2.read s := by
  cases s with
  | nil => rfl
  | mk a o l c =>
    simp only [Mem.read]
    apply List.map_congr_left
    intro i hi
    rw [List.mem_range] at hi
    exact h a o l c rfl (o + i) (by omega) (by omega)

theorem Mem.cell_copy_of_not {α : Type} (m : Mem α) (a o l c : Nat) (src : Slice) (a1 i : Nat)
    (h : a1 ≠ a ∨ i < o ∨ o + min l src.len ≤ i) :
    (m.copy (.mk a o l c) src).2.cell a1 i = m.cell a1 i := by
  simp only [Mem.copy, Slice.len_mk]
  rw [if_neg]
  rintro ⟨h1, h2, h3⟩
  omega

theorem cloneLoop_spec (A : Nat) (rest : HeaderMap) :
    ∀ (strs : Mem String) (off L C : Nat) (h2 : HeaderMap),
      countValues rest ≤ L →
      (∀ p ∈ rest, ∀ a o l c, p.2 = .mk a o l c → a ≠ A) →
      (rest.map Prod.fst).Nodup →
      (∀ p ∈ rest, mapGet h2 p.1 = none) →
      CloneLoopSpec A strs rest off h2 (cloneLoop strs rest (.mk A off L C) h2) := by
  induction rest with
  | nil =>
    intro strs off L C h2 _ _ _ _
    exact ⟨by simp [cloneLoop], fun _ _ => rfl, fun k vv h => by simp [mapGet] at h,
      fun _ _ _ => rfl, rfl, fun p hp => Or.inl hp⟩
  | cons e rest ih =>
    obtain ⟨k, vv⟩ := e
    intro strs off L C h2 hL hA hnd hfresh
    have hk : k ∉ rest.map Prod.fst := (List.nodup_cons.mp hnd).1
    have hnd2 : (rest.map Prod.fst).Nodup := (List.nodup_cons.mp hnd).2
    have hkn : mapGet rest k = none := mapGet_none_of_not_mem rest k hk
    have hA2 : ∀ p ∈ rest, ∀ a o l c, p.2 = .mk a o l c → a ≠ A :=
      fun p hp => hA p (List.mem_cons_of_mem _ hp)
    have hne : ∀ p ∈ rest, p.1 ≠ k := by
      intro p hp e
      exact hk (e ▸ List.mem_map_of_mem Prod.fst hp)
    have hfresh2 : ∀ s, ∀ p ∈ rest, mapGet (mapSet h2 k s) p.1 = none := by
      intro s p hp
      rw [mapGet_mapSet_ne _ _ _ _ (hne p hp)]
      exact hfresh p (List.mem_cons_of_mem _ hp)
    have hh2k : mapGet h2 k = none := hfresh (k, vv) (List.mem_cons_self _ _)
    cases vv with
    | nil =>
      have hL2 : countValues rest ≤ L := by simpa [countValues] using hL
      have IH := ih strs off L C (mapSet h2 k .nil) hL2 hA2 hnd2 (hfresh2 .nil)
      have e : cloneLoop strs ((k, Slice.nil) :: rest) (.mk A off L C) h2
          = cloneLoop strs rest (.mk A off L C) (mapSet h2 k .nil) := by
        simp [cloneLoop]
      rw [e]
      refine ⟨?_, ?_, ?_, ?_, IH.next_eq, ?_⟩
      · rw [IH.keys, mapSet_of_none _ _ _ hh2k]
        simp
      · intro k2 hk2
        have hne2 : k2 ≠ k := by
          intro e2
          subst e2
          simp [mapGet] at hk2
        have hk3 : mapGet rest k2 = none := by
          simpa [mapGet, hne2.symm] using hk2
        rw [IH.old k2 hk3, mapGet_mapSet_ne _ _ _ _ hne2]
      · intro k2 vv2 hk2
        by_cases hkk : k = k2
        · subst hkk
          simp only [mapGet, if_true, Option.some.injEq] at hk2
          subst hk2
          refine ⟨.nil, ?_, rfl, rfl⟩
          rw [IH.old k hkn, mapGet_mapSet_self]
        · simp only [mapGet, hkk, if_false] at hk2
          exact IH.copied k2 vv2 hk2
      · intro a i hai
        apply IH.frame
        simpa [countValues] using hai
      · intro p hp
        rcases IH.place p hp with h | h
        · rcases mem_mapSet _ _ _ _ h with h | h
          · exact Or.inl h
          · exact Or.inr (Or.inl (by rw [h]))
        · exact Or.inr h
    | mk a o l c =>
      have hl : l ≤ L := by
        simp only [countValues, Slice.len_mk] at hL
        omega
      have hmin : min L l = l := Nat.min_eq_right hl
      have hL2 : countValues rest ≤ L - l := by
        simp only [countValues, Slice.len_mk] at hL
        omega
      have haA : a ≠ A := hA (k, .mk a o l c) (List.mem_cons_self _ _) a o l c rfl
      have IH := ih (strs.copy (.mk A off L C) (.mk a o l c)).2 (off + l) (L - l) (C - l)
        (mapSet h2 k (.mk A off l l)) hL2 hA2 hnd2 (hfresh2 _)
      have e : cloneLoop strs ((k, .mk a o l c) :: rest) (.mk A off L C) h2
          = cloneLoop (strs.copy (.mk A off L C) (.mk a o l c)).2 rest
              (.mk A (off + l) (L - l) (C - l)) (mapSet h2 k (.mk A off l l)) := by
        simp [cloneLoop, Slice.sliceFrom, Slice.sliceTo3, hmin]
      rw [e]
      have hcell : ∀ a1 i, (a1 ≠ A ∨ i < off ∨ off + l ≤ i) →
          (strs.copy (.mk A off L C) (.mk a o l c)).2.cell a1 i = strs.cell a1 i := by
        intro a1 i h
        apply Mem.cell_copy_of_not
        simpa [hmin] using h
      refine ⟨?_, ?_, ?_, ?_, ?_, ?_⟩
      · rw [IH.keys, mapSet_of_none _ _ _ hh2k]
        simp
      · intro k2 hk2
        have hne2 : k2 ≠ k := by
          intro e2
          subst e2
          simp [mapGet] at hk2
        have hk3 : mapGet rest k2 = none := by
          simpa [mapGet, hne2.symm] using hk2
        rw [IH.old k2 hk3, mapGet_mapSet_ne _ _ _ _ hne2]
      · intro k2 vv2 hk2
        by_cases hkk : k = k2
        · subst hkk
          simp only [mapGet, if_true, Option.some.injEq] at hk2
          subst hk2
          refine ⟨.mk A off l l, ?_, ?_, rfl⟩
          · rw [IH.old k hkn, mapGet_mapSet_self]
          · have h1 : (cloneLoop (strs.copy (.mk A off L C) (.mk a o l c)).2 rest
                (.mk A (off + l) (L - l) (C - l)) (mapSet h2 k (.mk A off l l))).1.read
                  (.mk A off l l)
                = (strs.copy (.mk A off L C) (.mk a o l c)).2.read (.mk A off l l) := by
              apply Mem.read_congr
              intro a1 o1 l1 c1 es i hi1 hi2
              cases es
              exact IH.frame _ _ (Or.inr (Or.inl hi2))
            rw [h1]
            have h2 := Mem.read_copy_dst strs A off L C l (.mk a o l c)
            simp only [Slice.len_mk, hmin] at h2
            rw [h2]
            exact List.take_of_length_le (by simp)
        · simp only [mapGet, hkk, if_false] at hk2
          obtain ⟨s, hs1, hs2, hs3⟩ := IH.copied k2 vv2 hk2
          refine ⟨s, hs1, ?_, hs3⟩
          rw [hs2]
          apply Mem.read_copy_other
          intro a2 o2 l2 c2 a1 o1 l1 c1 e1 e2
          cases e1
          exact hA2 (k2, vv2) (mem_of_mapGet _ _ _ hk2) a1 o1 l1 c1 e2
      · intro a1 i hai
        rw [IH.frame a1 i, hcell a1 i]
        · simp only [countValues, Slice.len_mk] at hai
          omega
        · simp only [countValues, Slice.len_mk] at hai
          omega
      · rw [IH.next_eq, Mem.next_copy]
      · intro p hp
        rcases IH.place p hp with h | h
        · rcases mem_mapSet _ _ _ _ h with h | h
          · exact Or.inl h
          · exact Or.inr (Or.inr ⟨off, l, by rw [h]⟩)
        · exact Or.inr h

theorem HeaderClone_spec (hh : HdrHeap) (r : Nat) (wf : hh.WF r) :
    Cloned hh r (HeaderClone hh (some r)) := by
  have hA : ∀ p ∈ hh.maps r, ∀ a o l c, p.2 = Slice.mk a o l c → a ≠ hh.strs.next := by
    intro p hp a o l c e
    have hv := wf.valid p hp
    rw [e] at hv
    exact Nat.ne_of_lt hv
  have spec := cloneLoop_spec hh.strs.next (hh.maps r)
    (hh.strs.make (countValues (hh.maps r)) (countValues (hh.maps r))).2 0
    (countValues (hh.maps r)) (countValues (hh.maps r)) [] (Nat.le_refl _) hA
    wf.keys_nodup (fun _ _ => rfl)
  have e : HeaderClone hh (some r)
      = (some hh.nextMap,
         { strs := (cloneLoop (hh.strs.make (countValues (hh.maps r))
                      (countValues (hh.maps r))).2 (hh.maps r)
                      (.mk hh.strs.next 0 (countValues (hh.maps r))
                        (countValues (hh.maps r))) []).1,
           maps := fun r1 => if r1 = hh.nextMap then
                      (cloneLoop (hh.strs.make (countValues (hh.maps r))
                        (countValues (hh.maps r))).2 (hh.maps r)
                        (.mk hh.strs.next 0 (countValues (hh.maps r))
                          (countValues (hh.maps r))) []).2
                    else hh.maps r1,
           nextMap := hh.nextMap + 1 }) := rfl
  rw [e]
  refine ⟨rfl, ?_, ?_, ?_, ?_, ?_, ?_, rfl, ?_⟩
  · simp only [if_true]
    rw [spec.keys]
    rfl
  · intro k
    simp only [if_true]
    cases hk : mapGet (hh.maps r) k with
    | none =>
      rw [spec.old k hk]
      rfl
    | some vv =>
      obtain ⟨s, hs1, hs2, _⟩ := spec.copied k vv hk
      rw [hs1]
      simp only [Option.map_some', Option.some.injEq]
      rw [hs2]
      exact Mem.read_make _ _ _ _ (wf.valid _ (mem_of_mapGet _ _ _ hk))
  · intro k
    simp only [if_true]
    cases hk : mapGet (hh.maps r) k with
    | none =>
      rw [spec.old k hk]
      rfl
    | some vv =>
      obtain ⟨s, hs1, _, hs3⟩ := spec.copied k vv hk
      rw [hs1]
      simp only [Option.map_some', Option.some.injEq]
      exact hs3
  · intro r1 hr1
    simp only [hr1, if_false]
  · intro s hs
    simp only
    rw [← Mem.read_make hh.strs (countValues (hh.maps r)) (countValues (hh.maps r)) s hs]
    apply Mem.read_congr
    intro a o l c es i _ _
    apply spec.frame
    left
    rw [es] at hs
    exact Nat.ne_of_lt hs
  · simp only
    rw [spec.next_eq]
    rfl
  · intro p hp
    simp only [if_true] at hp
    rcases spec.place p hp with h | h
    · simp at h
    · exact h


/-! ## `Header.Get`, `Header.Set`, `Header.Add` -/

theorem keys_mapSet (m : HeaderMap) (k : String) (v : Slice) :
    (mapSet m k v).map Prod.fst
      = if k ∈ m.map Prod.fst then m.map Prod.fst else m.map Prod.fst ++ [k] := by
  induction m with
  | nil => simp [mapSet]
  | cons p rest ih =>
    obtain ⟨k1, v1⟩ := p
    by_cases h : k1 = k
    · simp [mapSet, h]
    · have h2 : ¬ k = k1 := fun e => h e.symm
      simp only [mapSet, h, if_false, List.map_cons, ih, List.mem_cons, h2, false_or]
      split <;> simp

theorem nodup_keys_mapSet (m : HeaderMap) (k : String) (v : Slice)
    (h : (m.map Prod.fst).Nodup) : ((mapSet m k v).map Prod.fst).Nodup := by
  rw [keys_mapSet]
  split
  · exact h
  · rename_i hk
    rw [List.nodup_append]
    refine ⟨h, List.nodup_singleton _, ?_⟩
    intro a ha hb
    rw [List.mem_singleton] at hb
    exact hk (hb ▸ ha)

section

variable (canon : String → String)

theorem HeaderGet_eq_values (hh : HdrHeap) (h : HttpHeader) (key : String) :
    HeaderGet canon hh h key = ((hh.values h (canon key)).getD []).headD "" := by
  cases h with
  | none => rfl
  | some r =>
    simp only [HeaderGet, HdrHeap.values]
    cases mapGet (hh.maps r) (canon key) <;> rfl

theorem Mem.read_store_other {α : Type} (m : Mem α) (a o l c i : Nat) (v : α) (s : Slice)
    (h : ∀ a1 o1 l1 c1, s = .mk a1 o1 l1 c1 → a1 ≠ a ∨ o + i < o1 ∨ o1 + l1 ≤ o + i) :
    (m.store (.mk a o l c) i v).read s = m.read s := by
  apply Mem.read_congr
  intro a1 o1 l1 c1 es j hj1 hj2
  simp only [Mem.store]
  rw [if_neg]
  rintro ⟨e1, e2⟩
  rcases h a1 o1 l1 c1 es with h | h | h <;> omega

/-- The heap after `Header.Set` on map `r`, in closed form. -/
theorem HeaderSet_some (hh : HdrHeap) (r : Nat) (key value : String) :
    HeaderSet canon hh (some r) key value
      = some ({ hh with strs := (hh.strs.make 1 1).2.store (.mk hh.strs.next 0 1 1) 0 value }.setEntry
          r (canon key) (.mk hh.strs.next 0 1 1)) := rfl

/-- `Set` on one map changes no value of another map, provided that map's
values are allocated. -/
theorem values_HeaderSet_other (hh hh2 : HdrHeap) (r r2 : Nat) (key value : String)
    (hne : r ≠ r2) (hv : ∀ p ∈ hh.maps r, hh.strs.Valid p.2)
    (e : HeaderSet canon hh (some r2) key value = some hh2) (k : String) :
    hh2.values (some r) k = hh.values (some r) k := by
  rw [HeaderSet_some] at e
  cases e
  simp only [HdrHeap.values, HdrHeap.setEntry, hne, if_false]
  cases hk : mapGet (hh.maps r) k with
  | none => rfl
  | some s =>
    simp only [Option.map_some', Option.some.injEq]
    have hs := hv _ (mem_of_mapGet _ _ _ hk)
    rw [Mem.read_store_other, Mem.read_make _ _ _ _ hs]
    intro a1 o1 l1 c1 es
    left
    rw [es] at hs
    exact Nat.ne_of_lt hs

/-- `Get` after `Set` of the same key returns the value set. -/
theorem HeaderGet_HeaderSet (hh : HdrHeap) (r : Nat) (key value : String) :
    ∃ hh2, HeaderSet canon hh (some r) key value = some hh2 ∧
      HeaderGet canon hh2 (some r) key = value := by
  refine ⟨_, HeaderSet_some canon hh r key value, ?_⟩
  simp only [HeaderGet, HdrHeap.setEntry, if_true, mapGet_mapSet_self, Option.getD_some]
  simp [Mem.read, Mem.store, Mem.make, List.range_succ]

/-- `Set` keeps the map well formed. -/
theorem WF_HeaderSet (hh hh2 : HdrHeap) (r : Nat) (key value : String) (wf : hh.WF r)
    (e : HeaderSet canon hh (some r) key value = some hh2) : hh2.WF r := by
  rw [HeaderSet_some] at e
  cases e
  refine ⟨wf.allocated, ?_, ?_⟩
  · simp only [HdrHeap.setEntry, if_true]
    exact nodup_keys_mapSet _ _ _ wf.keys_nodup
  · intro p hp
    simp only [HdrHeap.setEntry, if_true] at hp
    rcases mem_mapSet _ _ _ _ hp with h | h
    · exact (wf.valid p h).mono (Nat.le_succ _)
    · rw [h]
      exact Nat.lt_succ_self _

end

/-! ## Theorems about `Response` -/

theorem HdrHeap.size_eq_length_keys (hh : HdrHeap) (h : HttpHeader) :
    hh.size h = (hh.keys h).length := by
  cases h <;> simp [HdrHeap.size, HdrHeap.keys]

namespace TappableResponseWriter

variable {σ : Type} (W : ResponseWriter σ)

/-- `Response` in closed form. -/
theorem Response_eq (rw : TappableResponseWriter σ) (h : Heap) :
    Response W rw h
      = ({ StatusCode := rw.status, Header := (HeaderClone h.hdr (W.Header rw.w)).1,
           Body := Buffer.NewBuffer rw.body.Bytes },
         { bytes := h.bytes, hdr := (HeaderClone h.hdr (W.Header rw.w)).2 }) := rfl

/-- Reading a snapshot's body to the end gives the bytes under `Body()`. -/
theorem read_Response_Body (rw : TappableResponseWriter σ) (h : Heap) (m : Mem Byte) :
    ((Response W rw h).1.Body.ReadAll m).1 = m.read (Body rw) := by
  rw [Response_eq]
  simp only [Buffer.ReadAll, Buffer.Bytes, Buffer.NewBuffer, Body]
  cases rw.body.buf.sliceFrom rw.body.off <;> rfl

/-- The header of a snapshot against the live header. -/
theorem Response_header (rw : TappableResponseWriter σ) (h : Heap)
    (wf : ∀ r, Header W rw = some r → h.hdr.WF r) :
    (Response W rw h).2.hdr.keys (Response W rw h).1.Header = h.hdr.keys (Header W rw) ∧
    (∀ k, (Response W rw h).2.hdr.values (Response W rw h).1.Header k
        = h.hdr.values (Header W rw) k) := by
  rw [Response_eq]
  simp only [Header] at wf ⊢
  cases hH : W.Header rw.w with
  | none => exact ⟨rfl, fun _ => rfl⟩
  | some r =>
    have spec := HeaderClone_spec h.hdr r (wf r hH)
    constructor
    · simp only [spec.ref, HdrHeap.keys]
      exact spec.keys
    · intro k
      simp only [spec.ref, HdrHeap.values]
      exact spec.values k

section

variable (canon : String → String)

/-- C7: `Response()` returns the recorded status, a header with the same keys
(in the same number) each mapped to the same list of values as the wrapped
header store, so that `Get` agrees on every key and a header set through
`Header()` shows in a snapshot taken afterwards, and a body that, read to the
end of the stream, yields exactly the bytes of the buffer. -/
theorem response_snapshot (rw : TappableResponseWriter σ) (h : Heap)
    (wf : ∀ r, Header W rw = some r → h.hdr.WF r) :
    (Response W rw h).1.StatusCode = StatusCode rw ∧
    (Response W rw h).2.hdr.size (Response W rw h).1.Header = h.hdr.size (Header W rw) ∧
    (Response W rw h).2.hdr.keys (Response W rw h).1.Header = h.hdr.keys (Header W rw) ∧
    (∀ k, (Response W rw h).2.hdr.values (Response W rw h).1.Header k
        = h.hdr.values (Header W rw) k) ∧
    (∀ k, HeaderGet canon (Response W rw h).2.hdr (Response W rw h).1.Header k
        = HeaderGet canon h.hdr (Header W rw) k) ∧
    ((Response W rw h).1.Body.ReadAll (Response W rw h).2.bytes).1 = h.bytes.read (Body rw) ∧
    (∀ r, Header W rw = some r → ∀ k v, ∃ hh2,
        HeaderSet canon h.hdr (Header W rw) k v = some hh2 ∧
        HeaderGet canon (Response W rw { h with hdr := hh2 }).2.hdr
          (Response W rw { h with hdr := hh2 }).1.Header k = v) := by
  obtain ⟨hk, hv⟩ := Response_header W rw h wf
  refine ⟨rfl, ?_, hk, hv, ?_, read_Response_Body W rw h _, ?_⟩
  · rw [HdrHeap.size_eq_length_keys, HdrHeap.size_eq_length_keys, hk]
  · intro k
    rw [HeaderGet_eq_values, HeaderGet_eq_values, hv]
  · intro r hr k v
    rw [hr]
    obtain ⟨hh2, e, hg⟩ := HeaderGet_HeaderSet canon h.hdr r k v
    refine ⟨hh2, e, ?_⟩
    have wf2 : ∀ r1, Header W rw = some r1 → ({ h with hdr := hh2 } : Heap).hdr.WF r1 := by
      intro r1 hr1
      rw [hr] at hr1
      cases hr1
      exact WF_HeaderSet canon h.hdr hh2 r k v (wf r hr) e
    obtain ⟨_, hv2⟩ := Response_header W rw { h with hdr := hh2 } wf2
    rw [HeaderGet_eq_values, hv2, ← HeaderGet_eq_values, hr]
    exact hg

/-- Example for `response_snapshot`: status 200, `"hello"` written, and the
`Content-Type` the recorder set on the first write. -/
theorem response_snapshot_witness :
    exAfterHello.2.hdr.WF 0 ∧
    (Response exWriter exOK exAfterHello.2).1.StatusCode = 200 ∧
    HeaderGet exCanon (Response exWriter exOK exAfterHello.2).2.hdr
      (Response exWriter exOK exAfterHello.2).1.Header "Content-Type"
        = "text/plain; charset=utf-8" ∧
    ((Response exWriter exOK exAfterHello.2).1.Body.ReadAll
      (Response exWriter exOK exAfterHello.2).2.bytes).1 = hello :=
  have wf : ∀ r, Header exWriter exOK = some r → exAfterHello.2.hdr.WF r :=
    fun _ hr => Option.some.inj hr ▸ ⟨by decide, by decide, by decide⟩
  have t := response_snapshot exWriter exCanon exOK exAfterHello.2 wf
  ⟨⟨by decide, by decide, by decide⟩, t.1.trans (by decide),
   (t.2.2.2.2.1 "Content-Type").trans (by decide), t.2.2.2.2.2.1.trans (by decide)⟩

end

end TappableResponseWriter

/-! ## Snapshot headers against live headers -/

section

variable (canon : String → String)

/-- The heap after `Header.Add` on map `r`, in closed form. -/
theorem HeaderAdd_some (hh : HdrHeap) (r : Nat) (key value : String) :
    HeaderAdd canon hh (some r) key value
      = some ({ hh with strs :=
            (appendStr hh.strs ((mapGet (hh.maps r) (canon key)).getD .nil) value).2 }.setEntry
          r (canon key)
          (appendStr hh.strs ((mapGet (hh.maps r) (canon key)).getD .nil) value).1) := rfl

/-- `append` leaves alone every allocated slice that lies in another array
than the one appended to. -/
theorem read_appendStr_other (m : Mem String) (old s : Slice) (v : String)
    (hs : m.Valid s)
    (hsep : ∀ a o l c a1 o1 l1 c1, old = .mk a o l c → s = .mk a1 o1 l1 c1 → a1 ≠ a) :
    (appendStr m old v).2.read s = m.read s := by
  unfold appendStr
  split
  · cases old with
    | nil => rfl
    | mk a o l c =>
      simp only [Slice.sliceTo]
      apply Mem.read_store_other
      intro a1 o1 l1 c1 es
      exact Or.inl (hsep a o l c a1 o1 l1 c1 rfl es)
  · simp only [Mem.fst_make]
    rw [Mem.read_store_other, Mem.read_copy_next _ _ _ _ _ _ _ hs, Mem.read_make _ _ _ _ hs]
    intro a1 o1 l1 c1 es
    left
    rw [es] at hs
    exact Nat.ne_of_lt hs

/-- `Add` on one map changes no value of another map whose values are
allocated and share no array with the first map's. -/
theorem values_HeaderAdd_other (hh hh2 : HdrHeap) (r r2 : Nat) (key value : String)
    (hne : r ≠ r2) (hv : ∀ p ∈ hh.maps r, hh.strs.Valid p.2)
    (hsep : ∀ p ∈ hh.maps r, ∀ q ∈ hh.maps r2, ∀ a o l c a1 o1 l1 c1,
      q.2 = .mk a o l c → p.2 = .mk a1 o1 l1 c1 → a1 ≠ a)
    (e : HeaderAdd canon hh (some r2) key value = some hh2) (k : String) :
    hh2.values (some r) k = hh.values (some r) k := by
  rw [HeaderAdd_some] at e
  cases e
  simp only [HdrHeap.values, HdrHeap.setEntry, hne, if_false]
  cases hk : mapGet (hh.maps r) k with
  | none => rfl
  | some s =>
    simp only [Option.map_some', Option.some.injEq]
    have hmem := mem_of_mapGet _ _ _ hk
    apply read_appendStr_other _ _ _ _ (hv _ hmem)
    intro a o l c a1 o1 l1 c1 eo es
    cases hq : mapGet (hh.maps r2) (canon key) with
    | none =>
      rw [hq] at eo
      cases eo
    | some q =>
      rw [hq] at eo
      exact hsep _ hmem _ (mem_of_mapGet _ _ _ hq) a o l c a1 o1 l1 c1 eo es

end

namespace TappableResponseWriter

variable {σ : Type} (W : ResponseWriter σ)

/-- Where a snapshot's header lies: a new map, whose values are allocated and
share no array with the live map's, which is itself as before. -/
theorem Response_header_place (rw : TappableResponseWriter σ) (h : Heap) (r : Nat)
    (hr : Header W rw = some r) (wf : h.hdr.WF r) :
    (Response W rw h).1.Header = some h.hdr.nextMap ∧
    r ≠ h.hdr.nextMap ∧
    (Response W rw h).2.hdr.maps r = h.hdr.maps r ∧
    (∀ p ∈ (Response W rw h).2.hdr.maps r, (Response W rw h).2.hdr.strs.Valid p.2) ∧
    (∀ p ∈ (Response W rw h).2.hdr.maps h.hdr.nextMap,
      (Response W rw h).2.hdr.strs.Valid p.2) ∧
    (∀ p ∈ (Response W rw h).2.hdr.maps h.hdr.nextMap,
      ∀ q ∈ (Response W rw h).2.hdr.maps r, ∀ a o l c a1 o1 l1 c1,
        q.2 = .mk a o l c → p.2 = .mk a1 o1 l1 c1 → a1 ≠ a) := by
  have spec := HeaderClone_spec h.hdr r wf
  have hne : r ≠ h.hdr.nextMap := Nat.ne_of_lt wf.allocated
  rw [Response_eq]
  simp only [Header] at hr
  simp only [hr]
  have hm := spec.maps_frame r hne
  refine ⟨spec.ref, hne, hm, ?_, ?_, ?_⟩
  · intro p hp
    rw [hm] at hp
    exact (wf.valid p hp).mono (by rw [spec.next_strs]; exact Nat.le_succ _)
  · intro p hp
    rcases spec.place p hp with e | ⟨o, l, e⟩
    · rw [e]
      trivial
    · rw [e]
      show h.hdr.strs.next < _
      rw [spec.next_strs]
      exact Nat.lt_succ_self _
  · intro p hp q hq a o l c a1 o1 l1 c1 eq ep
    rw [hm] at hq
    have hv := wf.valid q hq
    rw [eq] at hv
    rcases spec.place p hp with e | ⟨o2, l2, e⟩
    · rw [e] at ep
      cases ep
    · rw [e] at ep
      cases ep
      exact Ne.symm (Nat.ne_of_lt hv)

section

variable (canon : String → String)

/-- C6: the headers of a snapshot and the live headers are independent in both
directions.  `Set` on `Response().Header` takes effect there and leaves every
value list, and so every `Get`, of `Header()` as it was; `Set` through
`Header()` after the snapshot takes effect there and leaves every value list
and every `Get` of the snapshot as it was; so does `Add` through `Header()`,
which appends to the live key's value list. -/
theorem snapshot_headers_independent (rw : TappableResponseWriter σ) (h : Heap) (r : Nat)
    (hr : Header W rw = some r) (wf : h.hdr.WF r) (k v : String) :
    (∃ hh2, HeaderSet canon (Response W rw h).2.hdr (Response W rw h).1.Header k v = some hh2 ∧
      HeaderGet canon hh2 (Response W rw h).1.Header k = v ∧
      ∀ k2, hh2.values (Header W rw) k2 = (Response W rw h).2.hdr.values (Header W rw) k2 ∧
        HeaderGet canon hh2 (Header W rw) k2
          = HeaderGet canon (Response W rw h).2.hdr (Header W rw) k2) ∧
    (∃ hh2, HeaderSet canon (Response W rw h).2.hdr (Header W rw) k v = some hh2 ∧
      HeaderGet canon hh2 (Header W rw) k = v ∧
      ∀ k2, hh2.values (Response W rw h).1.Header k2
          = (Response W rw h).2.hdr.values (Response W rw h).1.Header k2 ∧
        HeaderGet canon hh2 (Response W rw h).1.Header k2
          = HeaderGet canon (Response W rw h).2.hdr (Response W rw h).1.Header k2) ∧
    (∃ hh2, HeaderAdd canon (Response W rw h).2.hdr (Header W rw) k v = some hh2 ∧
      ∀ k2, hh2.values (Response W rw h).1.Header k2
          = (Response W rw h).2.hdr.values (Response W rw h).1.Header k2 ∧
        HeaderGet canon hh2 (Response W rw h).1.Header k2
          = HeaderGet canon (Response W rw h).2.hdr (Response W rw h).1.Header k2) := by
  obtain ⟨href, hne, _, hlive, hsnap, hsep⟩ := Response_header_place W rw h r hr wf
  rw [href, hr]
  refine ⟨?_, ?_, ?_⟩
  · obtain ⟨hh2, e, hg⟩ := HeaderGet_HeaderSet canon (Response W rw h).2.hdr h.hdr.nextMap k v
    refine ⟨hh2, e, hg, fun k2 => ?_⟩
    have hv := values_HeaderSet_other canon _ hh2 r h.hdr.nextMap k v hne hlive e
    exact ⟨hv k2, by rw [HeaderGet_eq_values, HeaderGet_eq_values, hv]⟩
  · obtain ⟨hh2, e, hg⟩ := HeaderGet_HeaderSet canon (Response W rw h).2.hdr r k v
    refine ⟨hh2, e, hg, fun k2 => ?_⟩
    have hv := values_HeaderSet_other canon _ hh2 h.hdr.nextMap r k v hne.symm hsnap e
    exact ⟨hv k2, by rw [HeaderGet_eq_values, HeaderGet_eq_values, hv]⟩
  · refine ⟨_, HeaderAdd_some canon (Response W rw h).2.hdr r k v, fun k2 => ?_⟩
    have hv := values_HeaderAdd_other canon _ _ h.hdr.nextMap r k v hne.symm hsnap hsep
      (HeaderAdd_some canon (Response W rw h).2.hdr r k v)
    exact ⟨hv k2, by rw [HeaderGet_eq_values, HeaderGet_eq_values, hv]⟩

/-- Example for `snapshot_headers_independent`: the `Content-Type` header of the
recorder after a write, set to `"foobar"`. -/
theorem snapshot_headers_independent_witness :
    Header exWriter exOK = some 0 ∧ exAfterHello.2.hdr.WF 0 ∧
    HeaderGet exCanon (Response exWriter exOK exAfterHello.2).2.hdr
      (Header exWriter exOK) "Content-Type" = "text/plain; charset=utf-8" ∧
    ∃ hh2, HeaderSet exCanon (Response exWriter exOK exAfterHello.2).2.hdr
        (Response exWriter exOK exAfterHello.2).1.Header "Content-Type" "foobar" = some hh2 ∧
      HeaderGet exCanon hh2 (Response exWriter exOK exAfterHello.2).1.Header "Content-Type"
        = "foobar" ∧
      ∀ k2, hh2.values (Header exWriter exOK) k2
          = (Response exWriter exOK exAfterHello.2).2.hdr.values (Header exWriter exOK) k2 ∧
        HeaderGet exCanon hh2 (Header exWriter exOK) k2
          = HeaderGet exCanon (Response exWriter exOK exAfterHello.2).2.hdr
              (Header exWriter exOK) k2 :=
  ⟨rfl, ⟨by decide, by decide, by decide⟩, by decide,
   (snapshot_headers_independent exWriter exCanon exOK exAfterHello.2 0 rfl
      ⟨by decide, by decide, by decide⟩ "Content-Type" "foobar").1⟩

end

end TappableResponseWriter

/-! ## `WriteHeader` on a fresh recorder -/

namespace ResponseRecorder

theorem WriteHeader_first (rw : ResponseRecorder) (hh : HdrHeap) (c : Int)
    (hw : rw.wroteHeader = false) (h1 : 100 ≤ c) (h2 : c ≤ 999) :
    rw.WriteHeader hh c
      = some ({ rw with Code := c, wroteHeader := true,
                        snapHeader := (HeaderClone hh (some rw.HeaderMap)).1 },
              (HeaderClone hh (some rw.HeaderMap)).2) := by
  have hc : ¬ (c < 100 ∨ c > 999) := by omega
  simp [WriteHeader, hw, hc]

end ResponseRecorder

namespace TappableResponseWriter

/-- On a writer built by `New` around a fresh recorder, `WriteHeader(c)` with
`100 ≤ c ≤ 999` returns, and both the tap and the recorder then hold `c`. -/
theorem writeHeader_fresh_recorder (canon : String → String) (detect : List Byte → String)
    (hh0 : HdrHeap) (m : Mem Byte) (c : Int) (h1 : 100 ≤ c) (h2 : c ≤ 999) :
    ∃ rw1 hp, WriteHeader (ResponseRecorder.writer canon detect)
        (New (ResponseRecorder.NewRecorder hh0).1)
        { bytes := m, hdr := (ResponseRecorder.NewRecorder hh0).2 } c = some (rw1, hp) ∧
      StatusCode rw1 = c ∧ rw1.w.Code = c := by
  have e := ResponseRecorder.WriteHeader_first (ResponseRecorder.NewRecorder hh0).1
    (ResponseRecorder.NewRecorder hh0).2 c rfl h1 h2
  refine ⟨{ status := c, body := (New (ResponseRecorder.NewRecorder hh0).1).body,
            w := { (ResponseRecorder.NewRecorder hh0).1 with
                   Code := c, wroteHeader := true,
                   snapHeader := (HeaderClone (ResponseRecorder.NewRecorder hh0).2
                     (some (ResponseRecorder.NewRecorder hh0).1.HeaderMap)).1 } },
          { bytes := m, hdr := (HeaderClone (ResponseRecorder.NewRecorder hh0).2
              (some (ResponseRecorder.NewRecorder hh0).1.HeaderMap)).2 }, ?_, rfl, rfl⟩
  simp only [WriteHeader, ResponseRecorder.writer]
  rw [show (New (ResponseRecorder.NewRecorder hh0).1).w = (ResponseRecorder.NewRecorder hh0).1
    from rfl, e]

end TappableResponseWriter

/-! ## The buffer step and the early returns of `Write` -/

namespace TappableResponseWriter

variable {σ : Type} (W : ResponseWriter σ)

/-- `Write` is its buffer step followed by the rest of its body. -/
theorem Write_eq_writeAfterBuffer (rw : TappableResponseWriter σ) (h : Heap) (data : Slice) :
    Write W rw h data = writeAfterBuffer W rw h data (bufferStep rw h data) := rfl

/-- C13: a buffering failure is surfaced before the real write.  When the
buffer call reports an error, or a count other than `len(data)`, the rest of
`Write` returns that count with an error at once (the reported error, else
"failed to write entirety of input to body"); the wrapped writer, made to log
its calls, is left exactly as it was, log included, and so are the headers. -/
theorem buffer_failure_returns_early (rw : TappableResponseWriter (σ × List Call)) (h : Heap)
    (data : Slice) (n : Nat) (err : Error) (body : Buffer) (bytes : Mem Byte)
    (hfail : err ≠ none ∨ n ≠ data.len) :
    (∀ rw0 h0 d0, Write (spy W) rw0 h0 d0
        = writeAfterBuffer (spy W) rw0 h0 d0 (bufferStep rw0 h0 d0)) ∧
    ∃ e : String,
      writeAfterBuffer (spy W) rw h data ((n, err), body, bytes)
        = some (((n : Int), some e),
            { status := rw.status, body := body, w := rw.w },
            { bytes := bytes, hdr := h.hdr }) ∧
      (err ≠ none → err = some e) ∧
      (err = none → e = "failed to write entirety of input to body") := by
  refine ⟨fun _ _ _ => rfl, ?_⟩
  cases err with
  | some e0 =>
    refine ⟨e0, ?_, fun _ => rfl, fun hn => by cases hn⟩
    simp [writeAfterBuffer]
  | none =>
    have hn : n ≠ data.len := by
      rcases hfail with h1 | h1
      · exact absurd rfl h1
      · exact h1
    refine ⟨"failed to write entirety of input to body", ?_, fun hn2 => absurd rfl hn2,
      fun _ => rfl⟩
    simp [writeAfterBuffer, hn]

/-- Example for `buffer_failure_returns_early`: a buffer call that would take
only 3 of the 5 bytes of `"hello"`. -/
theorem buffer_failure_returns_early_witness :
    ((none : Error) ≠ none ∨ 3 ≠ exHello.len) ∧
    ∃ e : String,
      writeAfterBuffer (spy exWriter) exSpyStart exStart.2 exHello
          ((3, none), exSpyStart.body, exStart.2.bytes)
        = some (((3 : Int), some e),
            { status := exSpyStart.status, body := exSpyStart.body, w := exSpyStart.w },
            { bytes := exStart.2.bytes, hdr := exStart.2.hdr }) ∧
      ((none : Error) ≠ none → (none : Error) = some e) ∧
      ((none : Error) = none → e = "failed to write entirety of input to body") :=
  ⟨Or.inr (by decide),
   (buffer_failure_returns_early exWriter exSpyStart exStart.2 exHello 3 none exSpyStart.body
      exStart.2.bytes (Or.inr (by decide))).2⟩

/-- C17: the short-buffer branch cannot be taken.  For every writer state and
slice, `Reset` then `Write(data)` on the buffer reports `len(data)` bytes and
a nil error, so `Write` is exactly the forwarding of `data`: it returns what
the wrapped `Write` returns (a panic if that panics), never its own "failed
to write entirety of input to body", and the wrapped writer, made to log its
calls, has received the call. -/
theorem buffer_step_never_short (rw : TappableResponseWriter (σ × List Call)) (h : Heap)
    (data : Slice) :
    (bufferStep rw h data).1 = (data.len, none) ∧
    Write (spy W) rw h data =
      (W.Write rw.w.1 h.hdr (bufferStep rw h data).2.2 data).map
        (fun x => (x.1,
          { status := rw.status, body := (bufferStep rw h data).2.1,
            w := (x.2.1, rw.w.2 ++ [Call.Write ((bufferStep rw h data).2.2.read data)]) },
          { bytes := (bufferStep rw h data).2.2, hdr := x.2.2 })) := by
  refine ⟨Buffer.fst_write_reset rw.body h.bytes data, ?_⟩
  rw [Write_eq]
  show Option.map _ (match W.Write rw.w.1 h.hdr (bufferStep rw h data).2.2 data with
      | none => none
      | some (res, w, hh) =>
        some (res, (w, rw.w.2 ++ [Call.Write ((bufferStep rw h data).2.2.read data)]), hh))
    = _
  cases W.Write rw.w.1 h.hdr (bufferStep rw h data).2.2 data <;> rfl

end TappableResponseWriter

/-! ## What a sequence of calls preserves -/

section

variable {σ : Type} (canon : String → String) (W : ResponseWriter σ)

/-- A call other than `WriteHeader` leaves the recorded status as it was. -/
theorem step_status (s s1 : TappableResponseWriter σ × Heap) (op : Op)
    (hop : op.isWriteHeader = false) (e : step canon W s op = some s1) :
    s1.1.status = s.1.status := by
  cases op with
  | WriteHeader c => cases hop
  | Write data =>
    simp only [step, Option.map_eq_some'] at e
    obtain ⟨⟨r, rw1, h1⟩, e1, e2⟩ := e
    cases e2
    exact (TappableResponseWriter.Write_some W e1).2.2.1
  | Header => cases e; rfl
  | HeaderSet k v =>
    simp only [step, Option.map_eq_some'] at e
    obtain ⟨hdr, _, e2⟩ := e
    cases e2
    rfl
  | HeaderAdd k v =>
    simp only [step, Option.map_eq_some'] at e
    obtain ⟨hdr, _, e2⟩ := e
    cases e2
    rfl
  | Body => cases e; rfl
  | StatusCode => cases e; rfl
  | Response => cases e; rfl

/-- A sequence of calls without `WriteHeader` leaves the recorded status as
it was. -/
theorem run_status (ops : List Op) :
    ∀ (s s1 : TappableResponseWriter σ × Heap),
      (∀ op ∈ ops, op.isWriteHeader = false) → run canon W ops s = some s1 →
      s1.1.status = s.1.status := by
  induction ops with
  | nil =>
    intro s s1 _ e
    cases e
    rfl
  | cons op ops ih =>
    intro s s1 hops e
    simp only [run] at e
    cases hs : step canon W s op with
    | none => rw [hs] at e; cases e
    | some s2 =>
      rw [hs] at e
      rw [ih s2 s1 (fun o ho => hops o (List.mem_cons_of_mem _ ho)) e]
      exact step_status canon W s s2 op (hops op (List.mem_cons_self _ _)) hs

end

namespace ResponseRecorder

/-- The first `Write` on a recorder writes its header: `wroteHeader` is set
and `Code` is 200, though nobody called `WriteHeader`. -/
theorem Write_emits_status (canon : String → String) (detect : List Byte → String)
    (rw : ResponseRecorder) (hh : HdrHeap) (m : Mem Byte) (buf : Slice)
    (hw : rw.wroteHeader = false) :
    ∃ (res : Int × Error) (rw1 : ResponseRecorder) (hh1 : HdrHeap),
      Write canon detect rw hh m buf = some (res, rw1, hh1) ∧
      rw1.wroteHeader = true ∧ rw1.Code = 200 := by
  have hset : ∃ hh2 : HdrHeap,
      (if ¬ (mapGet (hh.maps rw.HeaderMap) "Content-Type").isSome = true ∧
            ¬ HeaderGet canon hh (some rw.HeaderMap) "Transfer-Encoding" ≠ ""
        then HeaderSet canon hh (some rw.HeaderMap) "Content-Type" (detect (m.read buf))
        else some hh) = some hh2 := by
    split
    · exact ⟨_, rfl⟩
    · exact ⟨_, rfl⟩
  obtain ⟨hh2, e2⟩ := hset
  have e := WriteHeader_first rw hh2 200 hw (by decide) (by decide)
  have hwh : writeHeader canon detect rw hh (m.read buf) = rw.WriteHeader hh2 200 := by
    unfold writeHeader
    simp only [hw, Bool.false_eq_true, if_false]
    rw [e2]
  rw [e] at hwh
  have hallow : bodyAllowedForStatus 200 = true := by decide
  simp only [Write, hwh]
  cases rw.Body <;> simp only [hallow, if_true] <;> exact ⟨_, _, _, rfl, rfl, rfl⟩

end ResponseRecorder

namespace TappableResponseWriter

variable {σ : Type} (W : ResponseWriter σ)

/-- C12, as stated, fails: the writer `New` returns around a fresh recorder
has `StatusCode()` 0, not -1. -/
theorem new_status_not_minus_one : StatusCode (New exStart.1.w) ≠ -1 := by
  decide

/-- C12, amended: `StatusCode()` is 0 while the status has not been set, on
the writer `New(w)` returns and after any sequence of calls on it that has no
`WriteHeader`. -/
theorem status_unset_is_zero (canon : String → String) (w : σ) (h : Heap) (ops : List Op)
    (s1 : TappableResponseWriter σ × Heap)
    (hops : ∀ op ∈ ops, op.isWriteHeader = false)
    (e : run canon W ops (New w, h) = some s1) :
    StatusCode (New w) = 0 ∧ StatusCode s1.1 = 0 :=
  ⟨rfl, run_status canon W ops (New w, h) s1 hops e⟩

/-- Example for `status_unset_is_zero`: the calls `exCalls` on a fresh
recorder. -/
theorem status_unset_is_zero_witness :
    (∀ op ∈ exCalls, op.isWriteHeader = false) ∧
    run exCanon exWriter exCalls (New exStart.1.w, exStart.2) = some exAfterCalls ∧
    StatusCode (New exStart.1.w) = 0 ∧ StatusCode exAfterCalls.1 = 0 :=
  ⟨by decide, rfl,
   status_unset_is_zero exWriter exCanon exStart.1.w exStart.2 exCalls exAfterCalls
     (by decide) rfl⟩

/-- C14: the recorded status changes only through `WriteHeader`.  After any
sequence of `Write`, `Header()` (with `Set` and `Add` on the headers it
returns), `Body()`, `StatusCode()` and `Response()` calls, `StatusCode()` is
what it was.  In particular `Write` on a writer just made around a fresh
recorder leaves `StatusCode()` at 0, although the recorder has then written
its header with status 200. -/
theorem status_only_by_writeHeader (canon : String → String) (ops : List Op)
    (s s1 : TappableResponseWriter σ × Heap)
    (hops : ∀ op ∈ ops, op.isWriteHeader = false)
    (e : run canon W ops s = some s1) :
    StatusCode s1.1 = StatusCode s.1 ∧
    ∀ (detect : List Byte → String) (hh0 : HdrHeap) (m : Mem Byte) (b : Slice),
      ∃ res rw1 h1,
        Write (ResponseRecorder.writer canon detect) (New (ResponseRecorder.NewRecorder hh0).1)
            { bytes := m, hdr := (ResponseRecorder.NewRecorder hh0).2 } b
          = some (res, rw1, h1) ∧
        StatusCode rw1 = 0 ∧ rw1.w.wroteHeader = true ∧ rw1.w.Code = 200 := by
  refine ⟨run_status canon W ops s s1 hops e, fun detect hh0 m b => ?_⟩
  obtain ⟨res, rec1, hh1, e1, hw, hc⟩ := ResponseRecorder.Write_emits_status canon detect
    (ResponseRecorder.NewRecorder hh0).1 (ResponseRecorder.NewRecorder hh0).2
    (bufferStep (New (ResponseRecorder.NewRecorder hh0).1)
      { bytes := m, hdr := (ResponseRecorder.NewRecorder hh0).2 } b).2.2 b rfl
  exact ⟨res, _, _, @Write_of_wrapped _ (ResponseRecorder.writer canon detect)
    (New (ResponseRecorder.NewRecorder hh0).1)
    { bytes := m, hdr := (ResponseRecorder.NewRecorder hh0).2 } b _ _ _ e1, rfl, hw, hc⟩

/-- Example for `status_only_by_writeHeader`: the calls `exCalls` on a writer
whose status is 200. -/
theorem status_only_by_writeHeader_witness :
    (∀ op ∈ exCalls, op.isWriteHeader = false) ∧
    run exCanon exWriter exCalls (exOK, exAfterHello.2) = some exAfterCallsOK ∧
    StatusCode exAfterCallsOK.1 = 200 :=
  ⟨by decide, rfl,
   (status_only_by_writeHeader exWriter exCanon exCalls (exOK, exAfterHello.2) exAfterCallsOK
     (by decide) rfl).1⟩

end TappableResponseWriter

/-! ## `Body()` tracks the last `Write` -/

namespace Buffer

/-- After `Reset` and `Write(p)` the buffer uses the array it had or a new one. -/
theorem write_reset_arr (b : Buffer) (m : Mem Byte) (p : Slice) (a o l c : Nat)
    (h : (b.Reset.Write m p).2.1.buf = .mk a o l c) :
    (∃ o0 l0 c0, b.buf = .mk a o0 l0 c0) ∨ a = m.next := by
  rcases b with ⟨buf, off⟩
  cases buf with
  | nil =>
    by_cases h0 : p.len = 0
    · simp [Reset, Write, tryGrowByReslice, Slice.sliceTo, Slice.sliceFrom, h0, Mem.copy] at h
    · by_cases h1 : p.len ≤ smallBufferSize
      · simp [Reset, Write, tryGrowByReslice, grow, Len, Slice.sliceTo, Slice.sliceFrom,
          h0, h1] at h
        exact Or.inr h.1.symm
      · simp [Reset, Write, tryGrowByReslice, grow, growSlice, Len, Slice.sliceTo,
          Slice.sliceFrom, h0, h1] at h
        exact Or.inr h.1.symm
  | mk a1 o1 l1 c1 =>
    by_cases h0 : p.len ≤ c1
    · simp [Reset, Write, tryGrowByReslice, Slice.sliceTo, Slice.sliceFrom, h0] at h
      exact Or.inl ⟨o1, l1, c1, by rw [h.1]⟩
    · have h1 : ¬ p.len ≤ c1 / 2 := by omega
      simp [Reset, Write, tryGrowByReslice, grow, growSlice, Len, Slice.sliceTo,
        Slice.sliceFrom, h0, h1] at h
      exact Or.inr h.1.symm

end Buffer

section

variable {σ : Type} (canon : String → String) (W : ResponseWriter σ)

/-- A call other than `Write` leaves the buffer and the byte arrays as they
were. -/
theorem step_body (s s1 : TappableResponseWriter σ × Heap) (op : Op)
    (hop : op.isWrite = false) (e : step canon W s op = some s1) :
    s1.1.body = s.1.body ∧ s1.2.bytes = s.2.bytes := by
  cases op with
  | Write data => cases hop
  | WriteHeader c =>
    simp only [step, TappableResponseWriter.WriteHeader] at e
    cases hw : W.WriteHeader s.1.w s.2.hdr c with
    | none => rw [hw] at e; cases e
    | some x =>
      rw [hw] at e
      cases e
      exact ⟨rfl, rfl⟩
  | Header => cases e; exact ⟨rfl, rfl⟩
  | HeaderSet k v =>
    simp only [step, Option.map_eq_some'] at e
    obtain ⟨hdr, _, e2⟩ := e
    cases e2
    exact ⟨rfl, rfl⟩
  | HeaderAdd k v =>
    simp only [step, Option.map_eq_some'] at e
    obtain ⟨hdr, _, e2⟩ := e
    cases e2
    exact ⟨rfl, rfl⟩
  | Body => cases e; exact ⟨rfl, rfl⟩
  | StatusCode => cases e; exact ⟨rfl, rfl⟩
  | Response => cases e; exact ⟨rfl, rfl⟩

/-- One call keeps the invariant `BodyTracks`. -/
theorem step_bodyTracks (h0 : Heap) (last : Option Slice)
    (s s1 : TappableResponseWriter σ × Heap) (op : Op)
    (hv : ∀ d, op = .Write d → h0.bytes.Valid d)
    (inv : BodyTracks h0 last s) (e : step canon W s op = some s1) :
    BodyTracks h0 (lastWrite [op] last) s1 := by
  by_cases hop : op.isWrite = false
  · obtain ⟨hb, hm⟩ := step_body canon W s s1 op hop e
    have hl : lastWrite [op] last = last := by
      cases op <;> first | rfl | cases hop
    rw [hl]
    refine ⟨?_, ?_, ?_, ?_⟩
    · rw [hm]; exact inv.next_le
    · intro d hd; rw [hm]; exact inv.frame d hd
    · intro a o l c hbuf; rw [hb] at hbuf; exact inv.fresh a o l c hbuf
    · have hB : TappableResponseWriter.Body s1.1 = TappableResponseWriter.Body s.1 := by
        simp only [TappableResponseWriter.Body, hb]
      rw [hB, hm]
      exact inv.body
  · cases op with
    | Write data =>
      have hd0 : h0.bytes.Valid data := hv data rfl
      have hd : s.2.bytes.Valid data := hd0.mono inv.next_le
      simp only [step, Option.map_eq_some'] at e
      obtain ⟨⟨r, rw1, h1⟩, e1, e2⟩ := e
      cases e2
      obtain ⟨eb, em, _, _⟩ := TappableResponseWriter.Write_some W e1
      have spec := Buffer.write_reset s.1.body s.2.bytes data hd
      have hsep : ∀ d, h0.bytes.Valid d → ∀ a o l c a1 o1 l1 c1,
          s.1.body.buf = .mk a o l c → d = .mk a1 o1 l1 c1 → a1 ≠ a := by
        intro d hd1 a o l c a1 o1 l1 c1 hbuf hdd
        have h1 := inv.fresh a o l c hbuf
        rw [hdd] at hd1
        have h2 : a1 < h0.bytes.next := hd1
        omega
      refine ⟨?_, ?_, ?_, ?_⟩
      · show h0.bytes.next ≤ h1.bytes.next
        rw [em]
        exact Nat.le_trans inv.next_le spec.next_le
      · intro d hd1
        show h1.bytes.read d = _
        rw [em, spec.frame d (hd1.mono inv.next_le) (hsep d hd1)]
        exact inv.frame d hd1
      · intro a o l c hbuf
        have hbuf2 : (s.1.body.Reset.Write s.2.bytes data).2.1.buf = .mk a o l c := by
          rw [← eb]; exact hbuf
        rcases Buffer.write_reset_arr _ _ _ a o l c hbuf2 with ⟨o0, l0, c0, h3⟩ | h3
        · exact inv.fresh a o0 l0 c0 h3
        · rw [h3]; exact inv.next_le
      · show h1.bytes.read (TappableResponseWriter.Body rw1) = h0.bytes.read data
        rw [TappableResponseWriter.read_Body_of_Write W hd e1]
        exact inv.frame data hd0
    | _ => exact absurd rfl hop

/-- A sequence of calls keeps the invariant `BodyTracks`. -/
theorem run_bodyTracks (h0 : Heap) (ops : List Op) :
    ∀ (last : Option Slice) (s s1 : TappableResponseWriter σ × Heap),
      (∀ d, Op.Write d ∈ ops → h0.bytes.Valid d) →
      BodyTracks h0 last s → run canon W ops s = some s1 →
      BodyTracks h0 (lastWrite ops last) s1 := by
  induction ops with
  | nil =>
    intro last s s1 _ inv e
    cases e
    exact inv
  | cons op ops ih =>
    intro last s s1 hv inv e
    simp only [run] at e
    cases hs : step canon W s op with
    | none => rw [hs] at e; cases e
    | some s2 =>
      rw [hs] at e
      have inv2 := step_bodyTracks canon W h0 last s s2 op
        (fun d hd => hv d (hd ▸ List.mem_cons_self _ _)) inv hs
      have h3 := ih (lastWrite [op] last) s2 s1
        (fun d hd => hv d (List.mem_cons_of_mem _ hd)) inv2 e
      have hl : lastWrite (op :: ops) last = lastWrite ops (lastWrite [op] last) := by
        cases op <;> rfl
      rw [hl]
      exact h3

/-- Along a run, `Body()` reads the bytes last written. -/
theorem run_lastWritten (ops : List Op) :
    ∀ (s s1 : TappableResponseWriter σ × Heap) (acc : List Byte),
      writesValid canon W ops s = true →
      s.2.bytes.read (TappableResponseWriter.Body s.1) = acc →
      run canon W ops s = some s1 →
      s1.2.bytes.read (TappableResponseWriter.Body s1.1) = lastWritten canon W ops s acc := by
  induction ops with
  | nil =>
    intro s s1 acc _ hb e
    cases e
    exact hb
  | cons op ops ih =>
    intro s s1 acc hv hb e
    simp only [run] at e
    cases hs : step canon W s op with
    | none => rw [hs] at e; cases e
    | some s2 =>
      rw [hs] at e
      simp only [writesValid, hs, Bool.and_eq_true] at hv
      simp only [lastWritten, hs]
      apply ih s2 s1 _ hv.2 _ e
      cases op with
      | Write data =>
        have hd : s.2.bytes.Valid data := of_decide_eq_true hv.1
        simp only [step, Option.map_eq_some'] at hs
        obtain ⟨⟨r, rw1, h1⟩, e1, e2⟩ := hs
        cases e2
        exact TappableResponseWriter.read_Body_of_Write W hd e1
      | WriteHeader c =>
        obtain ⟨h1, h2⟩ := step_body canon W s s2 (.WriteHeader c) rfl hs
        simp only [TappableResponseWriter.Body, h1, h2]
        exact hb
      | Header =>
        obtain ⟨h1, h2⟩ := step_body canon W s s2 .Header rfl hs
        simp only [TappableResponseWriter.Body, h1, h2]
        exact hb
      | HeaderSet k v =>
        obtain ⟨h1, h2⟩ := step_body canon W s s2 (.HeaderSet k v) rfl hs
        simp only [TappableResponseWriter.Body, h1, h2]
        exact hb
      | HeaderAdd k v =>
        obtain ⟨h1, h2⟩ := step_body canon W s s2 (.HeaderAdd k v) rfl hs
        simp only [TappableResponseWriter.Body, h1, h2]
        exact hb
      | Body =>
        obtain ⟨h1, h2⟩ := step_body canon W s s2 .Body rfl hs
        simp only [TappableResponseWriter.Body, h1, h2]
        exact hb
      | StatusCode =>
        obtain ⟨h1, h2⟩ := step_body canon W s s2 .StatusCode rfl hs
        simp only [TappableResponseWriter.Body, h1, h2]
        exact hb
      | Response =>
        obtain ⟨h1, h2⟩ := step_body canon W s s2 .Response rfl hs
        simp only [TappableResponseWriter.Body, h1, h2]
        exact hb

end

namespace TappableResponseWriter

variable {σ : Type} (W : ResponseWriter σ)

/-- C15: `Body()` tracks the last `Write`.  After any sequence of
`WriteHeader`, `Write`, `Header()` (with `Set` and `Add`), `Body()`,
`StatusCode()` and `Response()` calls on `New(w)` that returns, `Body()`
reads the bytes the argument of the most recent `Write` held when it was
written, or no bytes when there was no `Write`.  When the arguments are
slices allocated at the start, these are the bytes of the last `Write d` of
the sequence, the same at the start and at the end.  A call other than
`Write` changes neither the buffer nor any byte array. -/
theorem body_tracks_last_write (canon : String → String) (w : σ) (h0 : Heap) (ops : List Op)
    (s1 : TappableResponseWriter σ × Heap)
    (hv : writesValid canon W ops (New w, h0) = true)
    (e : run canon W ops (New w, h0) = some s1) :
    s1.2.bytes.read (Body s1.1) = lastWritten canon W ops (New w, h0) [] ∧
    ((∀ d, Op.Write d ∈ ops → h0.bytes.Valid d) →
      (s1.2.bytes.read (Body s1.1) = match lastWrite ops none with
        | none => []
        | some d => h0.bytes.read d) ∧
      ∀ d, h0.bytes.Valid d → s1.2.bytes.read d = h0.bytes.read d) ∧
    (∀ (s s2 : TappableResponseWriter σ × Heap) (op : Op), op.isWrite = false →
      step canon W s op = some s2 → s2.1.body = s.1.body ∧ s2.2.bytes = s.2.bytes) := by
  refine ⟨run_lastWritten canon W ops (New w, h0) s1 [] hv rfl e, fun hst => ?_,
    fun s s2 op hop hs => step_body canon W s s2 op hop hs⟩
  have inv0 : BodyTracks h0 none (New w, h0) :=
    ⟨Nat.le_refl _, fun _ _ => rfl, fun a o l c hb => (by cases hb), rfl⟩
  have inv := run_bodyTracks canon W h0 ops none (New w, h0) s1 hst inv0 e
  exact ⟨inv.body, inv.frame⟩

/-- Example for `body_tracks_last_write`: `"hello"`, a status, a snapshot,
then `"world"`. -/
theorem body_tracks_last_write_witness :
    writesValid exCanon exWriter exTwoWrites (New exStart.1.w, exStart.2) = true ∧
    run exCanon exWriter exTwoWrites (New exStart.1.w, exStart.2) = some exAfterTwoWrites ∧
    exAfterTwoWrites.2.bytes.read (Body exAfterTwoWrites.1) = world :=
  ⟨by decide, rfl,
   (body_tracks_last_write exWriter exCanon exStart.1.w exStart.2 exTwoWrites
     exAfterTwoWrites (by decide) rfl).1.trans (by decide)⟩

end TappableResponseWriter

/-! ## Taking and reading a snapshot; `Header()` -/

namespace Buffer

/-- A buffer that was read to the end has nothing more to give. -/
theorem ReadAll_ReadAll (b : Buffer) (m m1 : Mem Byte) :
    ((b.ReadAll m).2.ReadAll m1).1 = [] := by
  rcases b with ⟨buf, off⟩
  cases buf <;> simp [ReadAll, Reset, Bytes, Slice.sliceTo, Slice.sliceFrom, Mem.read]

end Buffer

section

variable {σ : Type} (canon : String → String) (W : ResponseWriter σ)

/-- Going through the tap or through the wrapped writer is the same mutation. -/
theorem mutate_direct (rw : TappableResponseWriter σ) (hh : HdrHeap) (x : HeaderMutation) :
    mutate canon W rw hh x = mutate canon W rw hh x.direct := by
  cases x with
  | Set via k v => cases via <;> rfl
  | Add via k v => cases via <;> rfl

theorem mutateAll_direct (rw : TappableResponseWriter σ) (xs : List HeaderMutation) :
    ∀ hh, mutateAll canon W rw xs hh
      = mutateAll canon W rw (xs.map HeaderMutation.direct) hh := by
  induction xs with
  | nil => intro hh; rfl
  | cons x xs ih =>
    intro hh
    simp only [mutateAll, List.map_cons, ← mutate_direct]
    cases mutate canon W rw hh x with
    | none => rfl
    | some hh1 => exact ih hh1

end

namespace TappableResponseWriter

variable {σ : Type} (W : ResponseWriter σ)

/-- C11: `Header()` is the wrapped writer's own header store, not a copy.  It
returns the very map the wrapped `Header()` returns; a sequence of `Set` and
`Add` mutations has the same effect whichever of the two ways each goes, and
after it every key has the same values, and the same `Get`, seen either way; a
value set one way is read the other way. -/
theorem header_is_wrapped_header (canon : String → String) (rw : TappableResponseWriter σ) :
    Header W rw = W.Header rw.w ∧
    (∀ xs hh, mutateAll canon W rw xs hh
        = mutateAll canon W rw (xs.map HeaderMutation.direct) hh) ∧
    (∀ xs hh hh1, mutateAll canon W rw xs hh = some hh1 →
      hh1.keys (Header W rw) = hh1.keys (W.Header rw.w) ∧
      ∀ k, hh1.values (Header W rw) k = hh1.values (W.Header rw.w) k ∧
        HeaderGet canon hh1 (Header W rw) k = HeaderGet canon hh1 (W.Header rw.w) k) ∧
    (∀ r, W.Header rw.w = some r → ∀ hh k v,
      (∃ hh2, HeaderSet canon hh (Header W rw) k v = some hh2 ∧
        HeaderGet canon hh2 (W.Header rw.w) k = v) ∧
      (∃ hh2, HeaderSet canon hh (W.Header rw.w) k v = some hh2 ∧
        HeaderGet canon hh2 (Header W rw) k = v)) := by
  refine ⟨rfl, fun xs hh => mutateAll_direct canon W rw xs hh,
    fun _ _ _ _ => ⟨rfl, fun _ => ⟨rfl, rfl⟩⟩, fun r hr hh k v => ?_⟩
  have h := HeaderGet_HeaderSet canon hh r k v
  simp only [Header, hr]
  exact ⟨h, h⟩

/-- C16: taking and consuming a snapshot disturbs nothing.  The snapshot's
body reads the buffer's bytes; `Response()` changes no byte array, and
reading (to the end) and closing change none either, so `Body()` still reads
the same bytes; the writer itself (status, buffer, the wrapped writer's state
and its log of `Write` and `WriteHeader` calls) is as it was; the consumed
snapshot is at its end, and a second snapshot reads the same bytes from the
start. -/
theorem snapshot_read_leaves_writer (canon : String → String)
    (rw : TappableResponseWriter (σ × List Call)) (h : Heap) :
    ((Response (spy W) rw h).1.Body.ReadAll (Response (spy W) rw h).2.bytes).1
      = h.bytes.read (Body rw) ∧
    (Response (spy W) rw h).2.bytes = h.bytes ∧
    (Response (spy W) rw h).2.bytes.read (Body rw) = h.bytes.read (Body rw) ∧
    step canon (spy W) (rw, h) Op.Response = some (rw, (Response (spy W) rw h).2) ∧
    ((((Response (spy W) rw h).1.Body.ReadAll (Response (spy W) rw h).2.bytes).2).ReadAll
      (Response (spy W) rw h).2.bytes).1 = [] ∧
    ((Response (spy W) rw (Response (spy W) rw h).2).1.Body.ReadAll
      (Response (spy W) rw (Response (spy W) rw h).2).2.bytes).1 = h.bytes.read (Body rw) :=
  ⟨read_Response_Body (spy W) rw h _, rfl, rfl, rfl, Buffer.ReadAll_ReadAll _ _ _,
   read_Response_Body (spy W) rw _ _⟩

end TappableResponseWriter

/-! ## `WriteHeader` and the status of the wrapped writer -/

namespace TappableResponseWriter

variable {σ : Type} (W : ResponseWriter σ)

/-- C3, as stated, fails: `WriteHeader(200)` then `WriteHeader(404)` on a
writer around a fresh recorder.  Both calls return and `StatusCode()` is 404,
but the recorder, which takes only the first status, has `Code` 200. -/
theorem second_status_not_observed :
    run exCanon exWriter exTwoStatuses exStart = some exAfterTwoStatuses ∧
    StatusCode exAfterTwoStatuses.1 = 404 ∧
    exAfterTwoStatuses.1.w.Code = 200 ∧
    exAfterTwoStatuses.1.w.Code ≠ StatusCode exAfterTwoStatuses.1 :=
  ⟨rfl, by decide, by decide, by decide⟩

/-- C3, amended: after `WriteHeader(c)` the tapped `StatusCode()` is `c`,
whatever it was before (the last call wins), and the wrapped writer has
received exactly one call, `WriteHeader(c)`: it is in the state that call
produced and its call log has grown by that single entry.  Whether the
wrapped writer's own status is then `c` is up to it: a recorder that has not
written its header takes `c` as its `Code` (for `c` in `100 .. 999`), a
recorder that has written its header keeps the `Code` it has. -/
theorem writeHeader_status (rw : TappableResponseWriter (σ × List Call)) (h : Heap)
    (c : Int) (w1 : σ) (hdr1 : HdrHeap)
    (e : W.WriteHeader rw.w.1 h.hdr c = some (w1, hdr1)) :
    (∃ rw1 h1, WriteHeader (spy W) rw h c = some (rw1, h1) ∧
      StatusCode rw1 = c ∧
      rw1.w = (w1, rw.w.2 ++ [Call.WriteHeader c]) ∧
      h1.hdr = hdr1 ∧ h1.bytes = h.bytes ∧ rw1.body = rw.body) ∧
    (∀ (canon : String → String) (detect : List Byte → String)
        (t : TappableResponseWriter ResponseRecorder) (hp : Heap),
      (t.w.wroteHeader = false → 100 ≤ c → c ≤ 999 →
        ∃ rw1 h1, WriteHeader (ResponseRecorder.writer canon detect) t hp c = some (rw1, h1) ∧
          StatusCode rw1 = c ∧ rw1.w.Code = c ∧ rw1.w.wroteHeader = true) ∧
      (t.w.wroteHeader = true →
        ∃ rw1 h1, WriteHeader (ResponseRecorder.writer canon detect) t hp c = some (rw1, h1) ∧
          StatusCode rw1 = c ∧ rw1.w.Code = t.w.Code ∧ rw1.w.wroteHeader = true)) := by
  refine ⟨WriteHeader_spy W rw h c w1 hdr1 e, fun canon detect t hp => ⟨?_, ?_⟩⟩
  · intro hw h1 h2
    have e1 := ResponseRecorder.WriteHeader_first t.w hp.hdr c hw h1 h2
    refine ⟨{ status := c, body := t.body,
              w := { t.w with
                     Code := c, wroteHeader := true,
                     snapHeader := (HeaderClone hp.hdr (some t.w.HeaderMap)).1 } },
            { bytes := hp.bytes, hdr := (HeaderClone hp.hdr (some t.w.HeaderMap)).2 },
            ?_, rfl, rfl, rfl⟩
    simp only [WriteHeader, ResponseRecorder.writer]
    rw [e1]
  · intro hw
    have e1 : ResponseRecorder.WriteHeader t.w hp.hdr c = some (t.w, hp.hdr) := by
      simp [ResponseRecorder.WriteHeader, hw]
    refine ⟨{ status := c, body := t.body, w := t.w }, { bytes := hp.bytes, hdr := hp.hdr },
      ?_, rfl, rfl, hw⟩
    simp only [WriteHeader, ResponseRecorder.writer]
    rw [e1]

/-- Example for `writeHeader_status`: `WriteHeader(404)` around a fresh
recorder, with and without the call log. -/
theorem writeHeader_status_witness :
    exWriter.WriteHeader exSpyStart.w.1 exStart.2.hdr 404
      = some (exAfterStatus.1.w.1, exAfterStatus.2.hdr) ∧
    (∃ rw1 h1, WriteHeader (spy exWriter) exSpyStart exStart.2 404 = some (rw1, h1) ∧
      StatusCode rw1 = 404 ∧
      rw1.w = (exAfterStatus.1.w.1, exSpyStart.w.2 ++ [Call.WriteHeader 404]) ∧
      h1.hdr = exAfterStatus.2.hdr ∧ h1.bytes = exStart.2.bytes ∧
      rw1.body = exSpyStart.body) ∧
    ∃ rw1 h1, WriteHeader (ResponseRecorder.writer exCanon exDetect) exStart.1 exStart.2 404
        = some (rw1, h1) ∧
      StatusCode rw1 = 404 ∧ rw1.w.Code = 404 ∧ rw1.w.wroteHeader = true :=
  have t := writeHeader_status exWriter exSpyStart exStart.2 404 _ _
    (rfl : exWriter.WriteHeader exSpyStart.w.1 exStart.2.hdr 404
      = some (exAfterStatus.1.w.1, exAfterStatus.2.hdr))
  ⟨rfl, t.1, (t.2 exCanon exDetect exStart.1 exStart.2).1 rfl (by decide) (by decide)⟩

end TappableResponseWriter

end Tapresp
